import Mathlib

/-!
Verification development for the `nani` workspace store and response codec.

The definitions below are a shallow embedding of the Go sources:

* `pkg/ai/types.go` — the structured-response codec (`Response`,
  `defaultResponse`, `parseAIResponse`): raw generated text is trimmed,
  an outermost code fence is stripped, the remainder is decoded as a JSON
  object with `think` / `summary` / `content` string fields, and each field
  is validated to be non-empty after trimming.
* `pkg/ai/workspace.go` — the file-backed artifact store (`Workspace`,
  `Context`, `ArtifactIndexes`, sessions / roles / preferences and their
  lifecycle operations).

Strings are modelled as Lean `String` / `List Char` (Go indexes bytes; all
inputs of interest here are ASCII, where the two coincide).  Timestamps are
modelled as natural numbers.  JSON file contents are modelled by an explicit
`Json` syntax tree; a corrupt (unreadable or unparsable) file is a `Blob.corrupt`.
Filesystem writes and removes succeed in this model (no spontaneous I/O
failures); decode failures and missing files are modelled faithfully.
-/

namespace Nani

/-! ## Association lists

Go `map`s keyed by strings, and directories of files keyed by file name,
are modelled as association lists.  `insertA` replaces the binding if the
key is present (as Go map assignment and file overwrite do), `eraseA`
removes it, `lookupA` finds the first binding.  Directory entries are keyed
by the file-name stem: the entry `(k, b)` stands for the file `k ++ ".json"`.
-/

abbrev AList (α : Type) : Type := List (String × α)

def lookupA {α : Type} : AList α → String → Option α
  | [], _ => none
  | (k, v) :: rest, key => if k = key then some v else lookupA rest key

def insertA {α : Type} : AList α → String → α → AList α
  | [], key, v => [(key, v)]
  | (k, w) :: rest, key, v =>
      if k = key then (key, v) :: rest else (k, w) :: insertA rest key v

def eraseA {α : Type} (l : AList α) (key : String) : AList α :=
  l.filter (fun p => p.1 ≠ key)

def keysA {α : Type} (l : AList α) : List String := l.map Prod.fst

/-! ## Character and string helpers mirroring Go's `strings` package -/

/-- The backtick character (avoiding a literal in code). -/
def bt : Char := Char.ofNat 96

/-- Go `unicode.IsSpace`, restricted to the Latin-1 range
(`\t \n \v \f \r`, space, NEL, NBSP); exotic Unicode spaces are out of
scope for the inputs modelled here. -/
def isSpaceGo (c : Char) : Bool :=
  (9 ≤ c.toNat && c.toNat ≤ 13) || c.toNat == 32 || c.toNat == 133 || c.toNat == 160

/-- Go `strings.TrimSpace` on a character list. -/
def trimL (l : List Char) : List Char :=
  (((l.dropWhile isSpaceGo).reverse).dropWhile isSpaceGo).reverse

/-- Go `strings.SplitN(s, "\n", 2)`: the text before the first newline, and
(if a newline exists) the text after it. -/
def breakNL : List Char → List Char × Option (List Char)
  | [] => ([], none)
  | c :: rest =>
      if c = '\n' then ([], some rest)
      else
        let p := breakNL rest
        (c :: p.1, p.2)

/-- The three-backtick fence marker (`HasPrefix(s, "```")` checks). -/
def fenceChars : List Char := [bt, bt, bt]

/-- The closing-fence pattern searched by `strings.LastIndex(remaining, "\n```")`. -/
def fencePat : List Char := '\n' :: fenceChars

/-- All indexes at which `fencePat` occurs in `l`. -/
def fenceMatches (l : List Char) : List Nat :=
  (List.range (l.length + 1)).filter (fun i => fencePat.isPrefixOf (l.drop i))

/-- Go `strings.LastIndex(l, "\n```")`: the last occurrence, if any. -/
def lastIndexFence (l : List Char) : Option Nat :=
  (fenceMatches l).max?

/-- ASCII-ish lowercase of a string, for Go `encoding/json`'s
case-insensitive field-name matching. -/
def lowerStr (s : String) : String := String.mk (s.data.map Char.toLower)

/-- Go `encoding/json` matches an object key to a struct field tag exactly
or case-insensitively. -/
def keyMatch (key tag : String) : Bool := key == tag || lowerStr key == tag

/-! ## JSON values and a JSON text parser

`Json` is the syntax tree of a parsed JSON document.  `parseJsonText`
models the lexical layer of Go `json.Unmarshal`: it parses one JSON value
and requires only whitespace to follow.  Numbers are modelled coarsely
(their integer part); no claim in this development depends on numeric
payloads of raw JSON text.
-/

inductive Json where
  | null
  | bool (b : Bool)
  | num (n : Int)
  | str (s : String)
  | arr (elems : List Json)
  | obj (fields : List (String × Json))

def jsonWs (c : Char) : Bool := c = ' ' || c = '\t' || c = '\n' || c = '\r'

def skipWs (l : List Char) : List Char := l.dropWhile jsonWs

def hexVal (c : Char) : Option Nat :=
  if '0' ≤ c ∧ c ≤ '9' then some (c.toNat - 48)
  else if 'a' ≤ c ∧ c ≤ 'f' then some (c.toNat - 87)
  else if 'A' ≤ c ∧ c ≤ 'F' then some (c.toNat - 55)
  else none

def escChar (c : Char) : Option Char :=
  if c = '"' ∨ c = '\\' ∨ c = '/' then some c
  else if c = 'b' then some (Char.ofNat 8)
  else if c = 'f' then some (Char.ofNat 12)
  else if c = 'n' then some '\n'
  else if c = 'r' then some '\r'
  else if c = 't' then some '\t'
  else none

/-- Parse the body of a JSON string (after the opening quote), returning the
decoded characters and the rest of the input after the closing quote. -/
def parseStringChars : List Char → Option (List Char × List Char)
  | [] => none
  | '"' :: rest => some ([], rest)
  | '\\' :: 'u' :: a :: b :: c :: d :: rest =>
      match hexVal a, hexVal b, hexVal c, hexVal d with
      | some ha, some hb, some hc, some hd =>
          (parseStringChars rest).map
            (fun p => (Char.ofNat (((ha * 16 + hb) * 16 + hc) * 16 + hd) :: p.1, p.2))
      | _, _, _, _ => none
  | '\\' :: e :: rest =>
      match escChar e with
      | some c => (parseStringChars rest).map (fun p => (c :: p.1, p.2))
      | none => none
  | c :: rest =>
      if c.toNat < 32 then none
      else (parseStringChars rest).map (fun p => (c :: p.1, p.2))

def spanDigits (l : List Char) : List Char × List Char :=
  (l.takeWhile Char.isDigit, l.dropWhile Char.isDigit)

def digitsToNat (l : List Char) : Nat :=
  l.foldl (fun acc c => acc * 10 + (c.toNat - 48)) 0

/-- Parse a JSON number token (sign and integer part kept; fraction and
exponent accepted and discarded). -/
def parseNumTail (l : List Char) : Option (Int × List Char) :=
  let signed : Bool × List Char :=
    match l with
    | '-' :: rest => (true, rest)
    | _ => (false, l)
  let ds := spanDigits signed.2
  if ds.1 = [] then none
  else
    let afterInt := ds.2
    let afterFrac : Option (List Char) :=
      match afterInt with
      | '.' :: rest =>
          let fs := spanDigits rest
          if fs.1 = [] then none else some fs.2
      | _ => some afterInt
    match afterFrac with
    | none => none
    | some l2 =>
        let afterExp : Option (List Char) :=
          match l2 with
          | 'e' :: rest | 'E' :: rest =>
              let rest2 :=
                match rest with
                | '+' :: r => r
                | '-' :: r => r
                | _ => rest
              let es := spanDigits rest2
              if es.1 = [] then none else some es.2
          | _ => some l2
        match afterExp with
        | none => none
        | some l3 =>
            let n : Int := Int.ofNat (digitsToNat ds.1)
            some (if signed.1 then -n else n, l3)

mutual

def parseV : Nat → List Char → Option (Json × List Char)
  | 0, _ => none
  | Nat.succ fuel, l =>
      match skipWs l with
      | 'n' :: 'u' :: 'l' :: 'l' :: rest => some (Json.null, rest)
      | 't' :: 'r' :: 'u' :: 'e' :: rest => some (Json.bool true, rest)
      | 'f' :: 'a' :: 'l' :: 's' :: 'e' :: rest => some (Json.bool false, rest)
      | '"' :: rest =>
          match parseStringChars rest with
          | some p => some (Json.str (String.mk p.1), p.2)
          | none => none
      | '[' :: rest =>
          match skipWs rest with
          | ']' :: rest2 => some (Json.arr [], rest2)
          | rest2 =>
              match parseArrRest fuel rest2 with
              | some p => some (Json.arr p.1, p.2)
              | none => none
      | '{' :: rest =>
          match skipWs rest with
          | '}' :: rest2 => some (Json.obj [], rest2)
          | rest2 =>
              match parseObjRest fuel rest2 with
              | some p => some (Json.obj p.1, p.2)
              | none => none
      | c :: rest =>
          if c = '-' ∨ c.isDigit then
            match parseNumTail (c :: rest) with
            | some p => some (Json.num p.1, p.2)
            | none => none
          else none
      | [] => none

def parseArrRest : Nat → List Char → Option (List Json × List Char)
  | 0, _ => none
  | Nat.succ fuel, l =>
      match parseV fuel l with
      | none => none
      | some (j, rest) =>
          match skipWs rest with
          | ',' :: rest2 =>
              match parseArrRest fuel rest2 with
              | some p => some (j :: p.1, p.2)
              | none => none
          | ']' :: rest2 => some ([j], rest2)
          | _ => none

def parseObjRest : Nat → List Char → Option (List (String × Json) × List Char)
  | 0, _ => none
  | Nat.succ fuel, l =>
      match skipWs l with
      | '"' :: rest =>
          match parseStringChars rest with
          | none => none
          | some (key, rest2) =>
              match skipWs rest2 with
              | ':' :: rest3 =>
                  match parseV fuel rest3 with
                  | none => none
                  | some (v, rest4) =>
                      match skipWs rest4 with
                      | ',' :: rest5 =>
                          match parseObjRest fuel rest5 with
                          | some p => some ((String.mk key, v) :: p.1, p.2)
                          | none => none
                      | '}' :: rest5 => some ([(String.mk key, v)], rest5)
                      | _ => none
              | _ => none
      | _ => none

end

/-- Parse a complete JSON document: one value followed by whitespace only. -/
def parseJsonText (l : List Char) : Option Json :=
  match parseV (2 * l.length + 2) l with
  | some (j, rest) => if skipWs rest = [] then some j else none
  | none => none

/-! ## The response codec (`pkg/ai/types.go`) -/

/-- `Response` from `types.go`: the structured output format, a JSON object
with `think`, `summary` and `content` fields. -/
structure Response where
  think : String
  summary : String
  content : String
deriving DecidableEq, Repr

/-- The error values of `types.go` (`ErrEmptyInput`, `ErrInvalidJSON`,
`ErrEmptyThink`, `ErrEmptySummary`, `ErrEmptyContent`). -/
inductive RespErr where
  | emptyInput
  | invalidJSON
  | emptyThink
  | emptySummary
  | emptyContent
deriving DecidableEq, Repr

/-- `defaultResponse` from `types.go`: the fallback carrying the original
input in `Content`. -/
def defaultResponse (input : String) : Response :=
  { think := "No think block"
    summary := "No summary block"
    content := input }

/-- Populate the fields of a `Response` from a decoded JSON object, as Go
`json.Unmarshal` does for the `Response` struct: keys are matched to the
`think` / `summary` / `content` tags (exactly or case-insensitively), later
duplicates overwrite, `null` leaves a field unchanged, a non-string value
for a matched field is a decode error, and unknown keys are ignored. -/
def foldRespFields : List (String × Json) → Response → Option Response
  | [], r => some r
  | (k, v) :: rest, r =>
      if keyMatch k ("think") then
        match v with
        | Json.str s => foldRespFields rest { r with think := s }
        | Json.null => foldRespFields rest r
        | _ => none
      else if keyMatch k ("summary") then
        match v with
        | Json.str s => foldRespFields rest { r with summary := s }
        | Json.null => foldRespFields rest r
        | _ => none
      else if keyMatch k ("content") then
        match v with
        | Json.str s => foldRespFields rest { r with content := s }
        | Json.null => foldRespFields rest r
        | _ => none
      else foldRespFields rest r

/-- Go `json.Unmarshal(cleanedText, &aiResponse)` for the `Response` struct:
the text must be a JSON document whose value is an object (or `null`, which
leaves the zero value). -/
def unmarshalResp (l : List Char) : Option Response :=
  match parseJsonText l with
  | some (Json.obj fields) => foldRespFields fields { think := "", summary := "", content := "" }
  | some Json.null => some { think := "", summary := "", content := "" }
  | some _ => none
  | none => none

/-- The fence-stripping stage of `parseAIResponse` (`types.go`, lines 64-82):
trim, and if the text starts with a fence marker and contains a newline,
drop the opening fence line, cut at the last `"\n```"` if present, and trim
the remaining body. -/
def cleanFences (l : List Char) : List Char :=
  let cleaned := trimL l
  if fenceChars.isPrefixOf cleaned then
    match breakNL cleaned with
    | (_, none) => cleaned
    | (line0, some remaining) =>
        if fenceChars.isPrefixOf line0 then
          match lastIndexFence remaining with
          | some i => trimL (remaining.take i)
          | none => trimL remaining
        else cleaned
  else cleaned

/-- The validation stage of `parseAIResponse`: each field must be non-empty
after trimming; the first empty field short-circuits with its error and the
fallback for the original input. -/
def validateResp (orig : String) (r : Response) : Response × Option RespErr :=
  if trimL r.think.data = [] then (defaultResponse orig, some RespErr.emptyThink)
  else if trimL r.summary.data = [] then (defaultResponse orig, some RespErr.emptySummary)
  else if trimL r.content.data = [] then (defaultResponse orig, some RespErr.emptyContent)
  else (r, none)

/-- `parseAIResponse` from `types.go`: trim-and-check for emptiness, strip a
single outermost code fence, decode as JSON, validate the three fields; on
any failure return `defaultResponse` of the original input with the
corresponding error. -/
def parseAIResponse (responseText : String) : Response × Option RespErr :=
  if trimL responseText.data = [] then
    (defaultResponse responseText, some RespErr.emptyInput)
  else
    match unmarshalResp (cleanFences responseText.data) with
    | none => (defaultResponse responseText, some RespErr.invalidJSON)
    | some r => validateResp responseText r

/-! ## The artifact store data model (`pkg/ai/workspace.go`)

Timestamps (`time.Time`) are modelled as natural numbers; their JSON
encoding is modelled as a JSON number (the concrete wire format of a
timestamp is irrelevant to the claims).  Each directory is an association
list from the file-name stem to the file's content (`roles/<name>.json` is
the `rolesDir` entry with key `name`); all artifact files written by the
store carry the `.json` suffix, so the suffix is left implicit. -/

/-- `Role` from `workspace.go`: a named AI persona. -/
structure Role where
  name : String
  label : String
  persona : String
  description : String
deriving DecidableEq, Repr

/-- `Preference` from `workspace.go`. -/
structure Preference where
  id : String
  content : String
  timestamp : Nat
deriving DecidableEq, Repr

/-- `SavedMessage` from `workspace.go`. -/
structure SavedMessage where
  content : String
  timestamp : Nat
deriving DecidableEq, Repr

/-- `SavedResponse` from `workspace.go`. -/
structure SavedResponse where
  content : String
  timestamp : Nat
deriving DecidableEq, Repr

/-- `Chat` from `workspace.go`: one user/AI interaction. -/
structure Chat where
  id : String
  message : SavedMessage
  response : SavedResponse
deriving DecidableEq, Repr

/-- `Metadata` from `workspace.go`. -/
structure Metadata where
  createdAt : Nat
  priority : String
  sessionDuration : String
  lastUpdated : Nat
  archiveAfter : Nat
deriving DecidableEq, Repr

/-- `Session` from `workspace.go`: in memory the `role` is held by value. -/
structure Session where
  id : String
  label : String
  role : Role
  sources : List String
  chat : List Chat
  metadata : Metadata
deriving DecidableEq, Repr

/-- `SessionSummary` from `workspace.go`. -/
structure SessionSummary where
  id : String
  label : String
  roleName : String
  createdAt : Nat
  lastUpdated : Nat
deriving DecidableEq, Repr

/-- `RoleSummary` from `workspace.go`. -/
structure RoleSummary where
  name : String
  label : String
  description : String
deriving DecidableEq, Repr

/-- `PreferenceSummary` from `workspace.go`. -/
structure PreferenceSummary where
  id : String
  timestamp : Nat
  contentSnippet : String
deriving DecidableEq, Repr

/-- `ArtifactIndexes` from `workspace.go`: the three summary maps. -/
structure ArtifactIndexes where
  archivedSessions : AList SessionSummary
  rolesIndex : AList RoleSummary
  preferencesIndex : AList PreferenceSummary
deriving DecidableEq, Repr

/-- `Settings` from `workspace.go`. -/
structure Settings where
  defaultLanguage : String
  defaultRole : String
  systemPrompt : String
deriving DecidableEq, Repr

/-- `Project` from `workspace.go`. -/
structure Project where
  name : String
  owner : String
  repository : String
deriving DecidableEq, Repr

/-- `Context` from `workspace.go`: the record stored in `context.json`. -/
structure Context where
  workspace : String
  settings : Settings
  project : Project
  indexes : ArtifactIndexes
deriving DecidableEq, Repr

/-- The content of one artifact file: a parsed JSON document, or a corrupt
file (unreadable, or not valid JSON). -/
inductive Blob where
  | json (j : Json)
  | corrupt (raw : String)

/-! ## JSON encoding and decoding of artifacts

The decoders model Go `json.Unmarshal` into the artifact structs: a
missing key or an explicit `null` leaves the zero value, a value of the
wrong type is a decode error, unknown keys are ignored, a later duplicate
key overwrites an earlier one. -/

/-- Decode every element of a list, failing if any element fails. -/
def mapOption {α β : Type} (f : α → Option β) : List α → Option (List β)
  | [] => some []
  | a :: rest =>
      match f a with
      | none => none
      | some b => (mapOption f rest).map (fun l => b :: l)

/-- The value of the field matching `tag` (Go keeps the last duplicate). -/
def jfield (fields : List (String × Json)) (tag : String) : Option Json :=
  ((fields.filter (fun p => keyMatch p.1 tag)).getLast?).map Prod.snd

/-- The field of a JSON object document, if the document is an object. -/
def jsonField (j : Json) (tag : String) : Option Json :=
  match j with
  | Json.obj fields => jfield fields tag
  | _ => none

/-- Decode a `string` struct field. -/
def decStrField (fields : List (String × Json)) (tag : String) : Option String :=
  match jfield fields tag with
  | none => some ""
  | some (Json.str s) => some s
  | some Json.null => some ""
  | some _ => none

/-- Decode a timestamp field. -/
def decNatField (fields : List (String × Json)) (tag : String) : Option Nat :=
  match jfield fields tag with
  | none => some 0
  | some Json.null => some 0
  | some (Json.num n) => if 0 ≤ n then some n.toNat else none
  | some _ => none

/-- Decode a `[]string` struct field. -/
def decStrListField (fields : List (String × Json)) (tag : String) : Option (List String) :=
  match jfield fields tag with
  | none => some []
  | some Json.null => some []
  | some (Json.arr es) =>
      mapOption (fun j => match j with | Json.str s => some s | _ => none) es
  | some _ => none

def Role.toJson (r : Role) : Json :=
  Json.obj [("name", Json.str r.name), ("label", Json.str r.label),
            ("persona", Json.str r.persona), ("description", Json.str r.description)]

def decodeRole (j : Json) : Option Role :=
  match j with
  | Json.obj fields =>
      match decStrField fields ("name"), decStrField fields ("label"),
            decStrField fields ("persona"), decStrField fields ("description") with
      | some n, some l, some p, some d =>
          some { name := n, label := l, persona := p, description := d }
      | _, _, _, _ => none
  | Json.null => some { name := "", label := "", persona := "", description := "" }
  | _ => none

def Preference.toJson (p : Preference) : Json :=
  Json.obj [("id", Json.str p.id), ("content", Json.str p.content),
            ("timestamp", Json.num (Int.ofNat p.timestamp))]

def decodePreference (j : Json) : Option Preference :=
  match j with
  | Json.obj fields =>
      match decStrField fields ("id"), decStrField fields ("content"),
            decNatField fields ("timestamp") with
      | some i, some c, some t => some { id := i, content := c, timestamp := t }
      | _, _, _ => none
  | Json.null => some { id := "", content := "", timestamp := 0 }
  | _ => none

def Metadata.toJson (m : Metadata) : Json :=
  Json.obj [("createdAt", Json.num (Int.ofNat m.createdAt)), ("priority", Json.str m.priority),
            ("sessionDuration", Json.str m.sessionDuration),
            ("lastUpdated", Json.num (Int.ofNat m.lastUpdated)),
            ("archiveAfter", Json.num (Int.ofNat m.archiveAfter))]

def zeroMetadata : Metadata :=
  { createdAt := 0, priority := "", sessionDuration := "", lastUpdated := 0, archiveAfter := 0 }

def decodeMetadata (j : Json) : Option Metadata :=
  match j with
  | Json.obj fields =>
      match decNatField fields ("createdAt"), decStrField fields ("priority"),
            decStrField fields ("sessionDuration"), decNatField fields ("lastUpdated"),
            decNatField fields ("archiveAfter") with
      | some c, some p, some d, some l, some a =>
          some { createdAt := c, priority := p, sessionDuration := d,
                 lastUpdated := l, archiveAfter := a }
      | _, _, _, _, _ => none
  | Json.null => some zeroMetadata
  | _ => none

/-- Decode a `Metadata` struct field (missing key leaves the zero struct). -/
def decMetaField (fields : List (String × Json)) (tag : String) : Option Metadata :=
  match jfield fields tag with
  | none => some zeroMetadata
  | some j => decodeMetadata j

def SavedMessage.toJson (m : SavedMessage) : Json :=
  Json.obj [("content", Json.str m.content), ("timestamp", Json.num (Int.ofNat m.timestamp))]

def decodeSavedMessage (j : Json) : Option SavedMessage :=
  match j with
  | Json.obj fields =>
      match decStrField fields ("content"), decNatField fields ("timestamp") with
      | some c, some t => some { content := c, timestamp := t }
      | _, _ => none
  | Json.null => some { content := "", timestamp := 0 }
  | _ => none

def SavedResponse.toJson (m : SavedResponse) : Json :=
  Json.obj [("content", Json.str m.content), ("timestamp", Json.num (Int.ofNat m.timestamp))]

def decodeSavedResponse (j : Json) : Option SavedResponse :=
  match j with
  | Json.obj fields =>
      match decStrField fields ("content"), decNatField fields ("timestamp") with
      | some c, some t => some { content := c, timestamp := t }
      | _, _ => none
  | Json.null => some { content := "", timestamp := 0 }
  | _ => none

def Chat.toJson (c : Chat) : Json :=
  Json.obj [("id", Json.str c.id), ("message", c.message.toJson),
            ("response", c.response.toJson)]

def decodeChat (j : Json) : Option Chat :=
  match j with
  | Json.obj fields =>
      let msg : Option SavedMessage :=
        match jfield fields ("message") with
        | none => some { content := "", timestamp := 0 }
        | some mj => decodeSavedMessage mj
      let rsp : Option SavedResponse :=
        match jfield fields ("response") with
        | none => some { content := "", timestamp := 0 }
        | some rj => decodeSavedResponse rj
      match decStrField fields ("id"), msg, rsp with
      | some i, some m, some r => some { id := i, message := m, response := r }
      | _, _, _ => none
  | Json.null => some { id := "", message := { content := "", timestamp := 0 },
                        response := { content := "", timestamp := 0 } }
  | _ => none

/-- Decode a `[]Chat` struct field. -/
def decChatListField (fields : List (String × Json)) (tag : String) : Option (List Chat) :=
  match jfield fields tag with
  | none => some []
  | some Json.null => some []
  | some (Json.arr es) => mapOption decodeChat es
  | some _ => none

/-- `Session.MarshalJSON` from `workspace.go`: the `role` key carries only
the role's name as a string (the string field in the wrapper struct
overrides the embedded full `Role`). -/
def Session.toJson (s : Session) : Json :=
  Json.obj [("id", Json.str s.id), ("label", Json.str s.label),
            ("sources", Json.arr (s.sources.map Json.str)),
            ("chat", Json.arr (s.chat.map Chat.toJson)),
            ("metadata", s.metadata.toJson),
            ("role", Json.str s.role.name)]

/-- `Session.UnmarshalJSON` from `workspace.go`: the `role` key must be a
string; only `Role.Name` is populated (the full role is re-attached later
by `loadSession`). -/
def decodeSession (j : Json) : Option Session :=
  match j with
  | Json.obj fields =>
      match decStrField fields ("id"), decStrField fields ("label"),
            decStrField fields ("role"), decStrListField fields ("sources"),
            decChatListField fields ("chat"), decMetaField fields ("metadata") with
      | some i, some l, some rn, some src, some ch, some md =>
          some { id := i, label := l,
                 role := { name := rn, label := "", persona := "", description := "" },
                 sources := src, chat := ch, metadata := md }
      | _, _, _, _, _, _ => none
  | Json.null =>
      some { id := "", label := "",
             role := { name := "", label := "", persona := "", description := "" },
             sources := [], chat := [], metadata := zeroMetadata }
  | _ => none

/-- The partial decode used by `rebuildIndexes` for an archived session
file: only `id`, `label`, `role` and `metadata` (the anonymous struct in
`workspace.go`), assembled into a `SessionSummary`. -/
def decodeSessionSummary (j : Json) : Option SessionSummary :=
  match j with
  | Json.obj fields =>
      match decStrField fields ("id"), decStrField fields ("label"),
            decStrField fields ("role"), decMetaField fields ("metadata") with
      | some i, some l, some rn, some md =>
          some { id := i, label := l, roleName := rn,
                 createdAt := md.createdAt, lastUpdated := md.lastUpdated }
      | _, _, _, _ => none
  | Json.null =>
      some { id := "", label := "", roleName := "", createdAt := 0, lastUpdated := 0 }
  | _ => none

def decodeRoleBlob : Blob → Option Role
  | Blob.json j => decodeRole j
  | Blob.corrupt _ => none

def decodePrefBlob : Blob → Option Preference
  | Blob.json j => decodePreference j
  | Blob.corrupt _ => none

def decodeSessionBlob : Blob → Option Session
  | Blob.json j => decodeSession j
  | Blob.corrupt _ => none

def decodeSessionSummaryBlob : Blob → Option SessionSummary
  | Blob.json j => decodeSessionSummary j
  | Blob.corrupt _ => none

/-! ## Summaries built by the store -/

/-- The `RoleSummary` written into the index by `saveRole` and
`rebuildIndexes`. -/
def roleSummaryOf (r : Role) : RoleSummary :=
  { name := r.name, label := r.label, description := r.description }

/-- The `PreferenceSummary` written by `SavePreference` and
`rebuildIndexes` (content truncated to a 100-character snippet). -/
def prefSummaryOf (p : Preference) : PreferenceSummary :=
  let snippet := if p.content.length > 100 then p.content.take 100 ++ "..." else p.content
  { id := p.id, timestamp := p.timestamp, contentSnippet := snippet }

/-- The `SessionSummary` written into the index by `EndSession`. -/
def sessionSummaryOf (s : Session) : SessionSummary :=
  { id := s.id, label := s.label, roleName := s.role.name,
    createdAt := s.metadata.createdAt, lastUpdated := s.metadata.lastUpdated }

/-! ## The workspace state and its operations

A `Workspace` is the in-memory `Workspace` struct of `workspace.go`
(`ctx` mirrors `w.Context`) together with the state of the workspace
directory (`fs`).  Go methods mutate the receiver in place; here each
operation returns the updated workspace, and fallible operations also
return their error.  Filesystem writes and removes always succeed in this
model; `logAction` is a no-op.  `context.json` stores a `Context` record
directly (its JSON rendering is injective and never partially decoded by
the operations under study). -/

structure FS where
  contextFile : Option Context
  sessionFile : Option Blob
  sessionsDir : AList Blob
  rolesDir : AList Blob
  prefsDir : AList Blob

structure Workspace where
  fs : FS
  ctx : Context

inductive WsErr where
  | notFound
  | parseError
  | noActiveSession
deriving DecidableEq, Repr

/-- `saveContext` composed with the caller's in-place update of
`w.Context`: install the new context and write it to `context.json`. -/
def Workspace.withContext (w : Workspace) (c : Context) : Workspace :=
  { fs := { w.fs with contextFile := some c }, ctx := c }

/-- `saveRole`: write `roles/<name>.json`, update `RolesIndex`, persist the
context. -/
def Workspace.saveRole (w : Workspace) (role : Role) : Workspace :=
  let w1 : Workspace :=
    { w with fs := { w.fs with rolesDir := insertA w.fs.rolesDir role.name (Blob.json role.toJson) } }
  w1.withContext
    { w1.ctx with indexes :=
        { w1.ctx.indexes with rolesIndex := insertA w1.ctx.indexes.rolesIndex role.name (roleSummaryOf role) } }

/-- `DeleteRole`: remove `roles/<name>.json` (a missing file is swallowed:
`os.IsNotExist` errors are ignored), drop the index entry, persist. -/
def Workspace.DeleteRole (w : Workspace) (name : String) : Workspace :=
  let w1 : Workspace := { w with fs := { w.fs with rolesDir := eraseA w.fs.rolesDir name } }
  w1.withContext
    { w1.ctx with indexes :=
        { w1.ctx.indexes with rolesIndex := eraseA w1.ctx.indexes.rolesIndex name } }

/-- `SavePreference`: write `preferences/<id>.json`, update
`PreferencesIndex`, persist. -/
def Workspace.SavePreference (w : Workspace) (pref : Preference) : Workspace :=
  let w1 : Workspace :=
    { w with fs := { w.fs with prefsDir := insertA w.fs.prefsDir pref.id (Blob.json pref.toJson) } }
  w1.withContext
    { w1.ctx with indexes :=
        { w1.ctx.indexes with preferencesIndex := insertA w1.ctx.indexes.preferencesIndex pref.id (prefSummaryOf pref) } }

/-- `DeletePreference`: remove `preferences/<id>.json` (a missing file is
swallowed: only errors other than `os.IsNotExist` would be returned, and
in this failure-free model removal of an existing file always succeeds),
drop the index entry, persist. -/
def Workspace.DeletePreference (w : Workspace) (id : String) : Workspace :=
  let w1 : Workspace := { w with fs := { w.fs with prefsDir := eraseA w.fs.prefsDir id } }
  w1.withContext
    { w1.ctx with indexes :=
        { w1.ctx.indexes with preferencesIndex := eraseA w1.ctx.indexes.preferencesIndex id } }

/-- `loadRole`: read and decode `roles/<name>.json`. -/
def Workspace.loadRole (w : Workspace) (name : String) : Except WsErr Role :=
  match lookupA w.fs.rolesDir name with
  | none => Except.error WsErr.notFound
  | some b =>
      match decodeRoleBlob b with
      | none => Except.error WsErr.parseError
      | some r => Except.ok r

/-- `loadSession`: read `session.json`, decode it (which populates only the
role's name) and re-attach the full role via `loadRole`. -/
def Workspace.loadSession (w : Workspace) : Except WsErr Session :=
  match w.fs.sessionFile with
  | none => Except.error WsErr.noActiveSession
  | some b =>
      match decodeSessionBlob b with
      | none => Except.error WsErr.parseError
      | some s =>
          match w.loadRole s.role.name with
          | Except.error e => Except.error e
          | Except.ok role => Except.ok { s with role := role }

/-- `saveSession`: write the session to `session.json` through
`Session.MarshalJSON`. -/
def Workspace.saveSession (w : Workspace) (s : Session) : Workspace :=
  { w with fs := { w.fs with sessionFile := some (Blob.json s.toJson) } }

/-- `EndSession`: archive the active session.  No active session is a
no-op success; otherwise load it (rehydrating the role), write it to
`sessions/<id>.json`, remove `session.json`, add its summary to the index,
persist the context. -/
def Workspace.EndSession (w : Workspace) : Workspace × Option WsErr :=
  match w.fs.sessionFile with
  | none => (w, none)
  | some _ =>
      match w.loadSession with
      | Except.error e => (w, some e)
      | Except.ok s =>
          let w1 : Workspace :=
            { w with fs := { w.fs with
                sessionsDir := insertA w.fs.sessionsDir s.id (Blob.json s.toJson),
                sessionFile := none } }
          (w1.withContext
            { w1.ctx with indexes :=
                { w1.ctx.indexes with
                    archivedSessions := insertA w1.ctx.indexes.archivedSessions s.id (sessionSummaryOf s) } },
           none)

/-- The role-resolution policy of `StartSession`: the desired role if it is
non-empty and present in the roles index, else the default role from the
settings (the fallback is logged, never an error). -/
def Workspace.resolveRoleName (w : Workspace) (desired : String) : String :=
  if desired ≠ "" ∧ (lookupA w.ctx.indexes.rolesIndex desired).isSome then desired
  else w.ctx.settings.defaultRole

/-- The fresh session created by `StartSession`: generated id, caller's
label, resolved role, empty sources and chat, metadata with default
priority and duration and archive-eligibility seven days out. -/
def newSession (label : String) (role : Role) (now : Nat) (newId : String) : Session :=
  { id := newId, label := label, role := role, sources := [], chat := [],
    metadata :=
      { createdAt := now, priority := "medium", sessionDuration := "3600",
        lastUpdated := now, archiveAfter := now + 7 * 24 * 3600 } }

/-- The part of `StartSession` after the archiving step: resolve the role,
load it, and save a fresh session as `session.json`. -/
def Workspace.startWith (w1 : Workspace) (label desired : String) (now : Nat)
    (newId : String) : Workspace × Except WsErr Session :=
  match w1.loadRole (w1.resolveRoleName desired) with
  | Except.error e => (w1, Except.error e)
  | Except.ok role =>
      (w1.saveSession (newSession label role now newId),
       Except.ok (newSession label role now newId))

/-- `StartSession`: archive any active session via `EndSession` (returning
its error if archiving fails), then resolve the role, load it, and save a
fresh session as `session.json`.  The generated UUID and `time.Now()`
enter as the `newId` / `now` parameters. -/
def Workspace.StartSession (w : Workspace) (label desired : String) (now : Nat)
    (newId : String) : Workspace × Except WsErr Session :=
  match w.fs.sessionFile with
  | none => w.startWith label desired now newId
  | some _ =>
      match w.EndSession with
      | (w1, some e) => (w1, Except.error e)
      | (w1, none) => w1.startWith label desired now newId

/-- `ResumeArchivedSession`: archive the active session, load the archived
record, rehydrate its role, make it the active session, drop its index
entry, persist the context, remove the archived file (removal succeeds in
this model; in the source a removal failure is only a logged warning). -/
def Workspace.ResumeArchivedSession (w : Workspace) (sessionID : String) :
    Workspace × Except WsErr Session :=
  match w.EndSession with
  | (w1, some e) => (w1, Except.error e)
  | (w1, none) =>
      match lookupA w1.fs.sessionsDir sessionID with
      | none => (w1, Except.error WsErr.notFound)
      | some b =>
          match decodeSessionBlob b with
          | none => (w1, Except.error WsErr.parseError)
          | some s0 =>
              match w1.loadRole s0.role.name with
              | Except.error e => (w1, Except.error e)
              | Except.ok role =>
                  let s : Session := { s0 with role := role }
                  let w2 := w1.saveSession s
                  let w3 := w2.withContext
                    { w2.ctx with indexes :=
                        { w2.ctx.indexes with
                            archivedSessions := eraseA w2.ctx.indexes.archivedSessions s.id } }
                  ({ w3 with fs := { w3.fs with sessionsDir := eraseA w3.fs.sessionsDir sessionID } },
                   Except.ok s)

/-- The common shape of the three directory scans in `rebuildIndexes`:
fold over the directory entries, decode each file (`dec`), and on success
insert the derived summary (`mk`) under the record's own key (`key`); a
file that cannot be read or decoded is skipped with a warning. -/
def buildIndexFold {β α : Type} (dec : Blob → Option β) (key : β → String) (mk : β → α)
    (dir : AList Blob) : AList α :=
  dir.foldl
    (fun acc p =>
      match dec p.2 with
      | some b => insertA acc (key b) (mk b)
      | none => acc) []

/-- The sessions index built by `rebuildIndexes` (partial decode of the
summary fields, keyed by the in-file session id). -/
def buildSessionsIndex (dir : AList Blob) : AList SessionSummary :=
  buildIndexFold decodeSessionSummaryBlob (fun s => s.id) (fun s => s) dir

/-- The roles index built by `rebuildIndexes` (full `Role` decode, keyed by
the in-file role name). -/
def buildRolesIndex (dir : AList Blob) : AList RoleSummary :=
  buildIndexFold decodeRoleBlob (fun r => r.name) roleSummaryOf dir

/-- The preferences index built by `rebuildIndexes` (full `Preference`
decode, keyed by the in-file preference id). -/
def buildPrefsIndex (dir : AList Blob) : AList PreferenceSummary :=
  buildIndexFold decodePrefBlob (fun p => p.id) prefSummaryOf dir

/-- `rebuildIndexes`: re-scan the three directories, rebuild all three
maps from scratch (skipping corrupt files), persist the context. -/
def Workspace.rebuildIndexes (w : Workspace) : Workspace :=
  w.withContext
    { w.ctx with indexes :=
        { archivedSessions := buildSessionsIndex w.fs.sessionsDir,
          rolesIndex := buildRolesIndex w.fs.rolesDir,
          preferencesIndex := buildPrefsIndex w.fs.prefsDir } }

/-! ## The index-mirror invariant (claim C1)

`IndexInv` states that each of the three maps in `ArtifactIndexes` has
exactly one entry per artifact file on disk, under the file's key (the
session id, role name, or preference id, which equals both the file-name
stem and the decoded record's own identifier), and that `context.json`
holds the current in-memory `Context`. -/

/-- The map `idx` has an entry for a key exactly when the directory has a
file for it. -/
def dirSync {α : Type} (idx : AList α) (dir : AList Blob) : Prop :=
  ∀ k : String, (lookupA idx k).isSome ↔ (lookupA dir k).isSome

/-- Every file in the directory decodes (under `dec`) to a record whose own
key (under `key`) equals the file-name stem. -/
def WellKeyedG {β : Type} (dec : Blob → Option β) (key : β → String) (dir : AList Blob) : Prop :=
  ∀ p ∈ dir, ∃ b, dec p.2 = some b ∧ key b = p.1

/-- Every archived session file decodes and its in-file id equals its
file-name stem. -/
def WellKeyedSessions (dir : AList Blob) : Prop :=
  WellKeyedG decodeSessionSummaryBlob (fun s => s.id) dir

/-- Every role file decodes and its in-file name equals its file-name stem. -/
def WellKeyedRoles (dir : AList Blob) : Prop :=
  WellKeyedG decodeRoleBlob (fun r => r.name) dir

/-- Every preference file decodes and its in-file id equals its file-name
stem. -/
def WellKeyedPrefs (dir : AList Blob) : Prop :=
  WellKeyedG decodePrefBlob (fun p => p.id) dir

structure IndexInv (w : Workspace) : Prop where
  syncSessions : dirSync w.ctx.indexes.archivedSessions w.fs.sessionsDir
  syncRoles : dirSync w.ctx.indexes.rolesIndex w.fs.rolesDir
  syncPrefs : dirSync w.ctx.indexes.preferencesIndex w.fs.prefsDir
  keyedSessions : WellKeyedSessions w.fs.sessionsDir
  keyedRoles : WellKeyedRoles w.fs.rolesDir
  keyedPrefs : WellKeyedPrefs w.fs.prefsDir
  nodupSessionsDir : (keysA w.fs.sessionsDir).Nodup
  nodupRolesDir : (keysA w.fs.rolesDir).Nodup
  nodupPrefsDir : (keysA w.fs.prefsDir).Nodup
  nodupSessionsIdx : (keysA w.ctx.indexes.archivedSessions).Nodup
  nodupRolesIdx : (keysA w.ctx.indexes.rolesIndex).Nodup
  nodupPrefsIdx : (keysA w.ctx.indexes.preferencesIndex).Nodup
  persisted : w.fs.contextFile = some w.ctx

/-! ## Concrete fixtures

A small workspace used to witness the theorems on satisfiable inputs: one
role (`documenter`), one preference, one archived session (`sessB`), one
active session (`sessA`), with indexes that mirror the directories. -/

def role1 : Role :=
  { name := "documenter", label := "Code Documenter",
    persona := "You are a meticulous technical writer.",
    description := "Generates documentation." }

def pref1 : Preference :=
  { id := "p1", content := "prefer concise answers", timestamp := 3 }

def chat1 : Chat :=
  { id := "c1", message := { content := "hello", timestamp := 10 },
    response := { content := "hi", timestamp := 11 } }

def sessA : Session :=
  { id := "sessA", label := "Session", role := role1, sources := [], chat := [chat1],
    metadata := { createdAt := 5, priority := "medium", sessionDuration := "3600",
                  lastUpdated := 6, archiveAfter := 700 } }

def sessB : Session :=
  { id := "sessB", label := "Old session", role := role1, sources := ["main.go"],
    chat := [chat1],
    metadata := { createdAt := 1, priority := "medium", sessionDuration := "3600",
                  lastUpdated := 2, archiveAfter := 600 } }

def ctxBase : Context :=
  { workspace := "ws-1",
    settings := { defaultLanguage := "en", defaultRole := "documenter",
                  systemPrompt := "You are a general-purpose AI assistant." },
    project := { name := "demo", owner := "me", repository := "r" },
    indexes :=
      { archivedSessions := [("sessB", sessionSummaryOf sessB)],
        rolesIndex := [("documenter", roleSummaryOf role1)],
        preferencesIndex := [("p1", prefSummaryOf pref1)] } }

def wsBase : Workspace :=
  { fs :=
      { contextFile := some ctxBase,
        sessionFile := some (Blob.json sessA.toJson),
        sessionsDir := [("sessB", Blob.json sessB.toJson)],
        rolesDir := [("documenter", Blob.json role1.toJson)],
        prefsDir := [("p1", Blob.json pref1.toJson)] },
    ctx := ctxBase }

/-- The active session as decoded from disk, before role rehydration. -/
def sessADecoded : Session :=
  { sessA with
      role := { name := "documenter", label := "", persona := "", description := "" } }

/-- The archived session as decoded from disk, before role rehydration. -/
def sessBDecoded : Session :=
  { sessB with
      role := { name := "documenter", label := "", persona := "", description := "" } }

/-- A context whose default role has no file on disk (used to exercise the
`StartSession` failure path after a successful archive). -/
def ctxBad : Context :=
  { ctxBase with settings := { ctxBase.settings with defaultRole := "missing" } }

def wsBad : Workspace :=
  { fs := { wsBase.fs with contextFile := some ctxBad }, ctx := ctxBad }

/-! # Theorems

First a library of small lemmas about association lists, then the claim
theorems with their witnesses and counterexamples. -/

@[simp] theorem lookupA_nil {α : Type} (k : String) : lookupA ([] : AList α) k = none := rfl

@[simp] theorem lookupA_cons {α : Type} (a : String) (b : α) (rest : AList α) (k : String) :
    lookupA ((a, b) :: rest) k = if a = k then some b else lookupA rest k := rfl

@[simp] theorem insertA_nil {α : Type} (k : String) (v : α) :
    insertA ([] : AList α) k v = [(k, v)] := rfl

@[simp] theorem insertA_cons {α : Type} (a : String) (b : α) (rest : AList α)
    (k : String) (v : α) :
    insertA ((a, b) :: rest) k v =
      if a = k then (k, v) :: rest else (a, b) :: insertA rest k v := rfl

theorem lookupA_insertA_self {α : Type} (l : AList α) (k : String) (v : α) :
    lookupA (insertA l k v) k = some v := by
  induction l with
  | nil => simp
  | cons p rest ih =>
      obtain ⟨a, b⟩ := p
      by_cases h : a = k
      · simp [h]
      · simp [h, ih]

theorem lookupA_insertA_ne {α : Type} (l : AList α) (k k' : String) (v : α)
    (h : k' ≠ k) : lookupA (insertA l k v) k' = lookupA l k' := by
  induction l with
  | nil => simp [Ne.symm h]
  | cons p rest ih =>
      obtain ⟨a, b⟩ := p
      by_cases ha : a = k
      · subst ha
        simp [Ne.symm h, h]
      · by_cases ha' : a = k'
        · simp [ha, ha', Ne.symm h, h]
        · simp [ha, ha', ih]

theorem lookupA_eraseA_self {α : Type} (l : AList α) (k : String) :
    lookupA (eraseA l k) k = none := by
  induction l with
  | nil => simp [eraseA]
  | cons p rest ih =>
      obtain ⟨a, b⟩ := p
      by_cases h : a = k
      · simpa [eraseA, List.filter_cons, h] using ih
      · simpa [eraseA, List.filter_cons, h] using ih

theorem lookupA_eraseA_ne {α : Type} (l : AList α) (k k' : String) (h : k' ≠ k) :
    lookupA (eraseA l k) k' = lookupA l k' := by
  induction l with
  | nil => simp [eraseA]
  | cons p rest ih =>
      obtain ⟨a, b⟩ := p
      by_cases ha : a = k
      · subst ha
        simp [eraseA, List.filter_cons, Ne.symm h, ih]
        simpa [eraseA] using ih
      · simp [eraseA, List.filter_cons, ha] at ih ⊢
        simp [ih]

theorem lookupA_isSome_iff_mem {α : Type} (l : AList α) (k : String) :
    (lookupA l k).isSome = true ↔ k ∈ keysA l := by
  induction l with
  | nil => simp [keysA]
  | cons p rest ih =>
      obtain ⟨a, b⟩ := p
      by_cases h : a = k
      · simp [h, keysA]
      · simp [h, keysA, ih, Ne.symm h]

theorem lookupA_eq_some_mem {α : Type} (l : AList α) (k : String) (v : α)
    (h : lookupA l k = some v) : (k, v) ∈ l := by
  induction l with
  | nil => simp at h
  | cons p rest ih =>
      obtain ⟨a, b⟩ := p
      by_cases ha : a = k
      · subst ha
        simp at h
        simp [h]
      · simp [ha] at h
        exact List.mem_cons_of_mem _ (ih h)

theorem mem_insertA {α : Type} (l : AList α) (k : String) (v : α) (p : String × α)
    (h : p ∈ insertA l k v) : p = (k, v) ∨ p ∈ l := by
  induction l with
  | nil => simpa using h
  | cons q rest ih =>
      obtain ⟨a, b⟩ := q
      by_cases ha : a = k
      · simp [ha] at h
        rcases h with h | h
        · exact Or.inl (by simp [h])
        · exact Or.inr (List.mem_cons_of_mem _ h)
      · simp [ha] at h
        rcases h with h | h
        · exact Or.inr (by simp [h])
        · rcases ih h with h' | h'
          · exact Or.inl h'
          · exact Or.inr (List.mem_cons_of_mem _ h')

theorem mem_eraseA {α : Type} (l : AList α) (k : String) (p : String × α)
    (h : p ∈ eraseA l k) : p ∈ l :=
  List.mem_of_mem_filter h

theorem keysA_insertA_nodup {α : Type} (l : AList α) (k : String) (v : α)
    (h : (keysA l).Nodup) : (keysA (insertA l k v)).Nodup := by
  induction l with
  | nil => simp [keysA]
  | cons p rest ih =>
      obtain ⟨a, b⟩ := p
      by_cases ha : a = k
      · subst ha
        simpa [keysA] using h
      · simp only [insertA_cons, if_neg ha, keysA, List.map_cons, List.nodup_cons] at h ⊢
        refine ⟨fun hmem => h.1 ?_, ih h.2⟩
        have h1 : (lookupA (insertA rest k v) a).isSome = true :=
          (lookupA_isSome_iff_mem (insertA rest k v) a).mpr hmem
        rw [lookupA_insertA_ne rest k a v ha] at h1
        exact (lookupA_isSome_iff_mem rest a).mp h1

theorem keysA_eraseA_nodup {α : Type} (l : AList α) (k : String)
    (h : (keysA l).Nodup) : (keysA (eraseA l k)).Nodup := by
  have hsub : List.Sublist (keysA (eraseA l k)) (keysA l) :=
    List.Sublist.map Prod.fst (List.filter_sublist l)
  exact h.sublist hsub

theorem length_insertA_of_absent {α : Type} (l : AList α) (k : String) (v : α)
    (h : lookupA l k = none) : (insertA l k v).length = l.length + 1 := by
  induction l with
  | nil => simp
  | cons p rest ih =>
      obtain ⟨a, b⟩ := p
      by_cases ha : a = k
      · simp [ha] at h
      · simp [ha] at h
        simp [ha, ih h]

theorem eraseA_of_absent {α : Type} (l : AList α) (k : String)
    (h : lookupA l k = none) : eraseA l k = l := by
  induction l with
  | nil => rfl
  | cons p rest ih =>
      obtain ⟨a, b⟩ := p
      by_cases ha : a = k
      · simp [ha] at h
      · simp [ha] at h
        simp [eraseA, List.filter_cons, ha] at ih ⊢
        exact ih h

/-! ## Encode/decode roundtrips

Saving an artifact writes its JSON rendering; these lemmas state that the
decoders recover exactly what was written (for sessions: with only the
role's name, per `Session.MarshalJSON` / `UnmarshalJSON`). -/

theorem decodeRole_toJson (r : Role) : decodeRole r.toJson = some r := rfl

theorem decodePreference_toJson (p : Preference) : decodePreference p.toJson = some p := by
  simp [decodePreference, Preference.toJson, decStrField, decNatField, jfield, keyMatch, lowerStr]

theorem decodeMetadata_toJson (m : Metadata) : decodeMetadata m.toJson = some m := by
  simp [decodeMetadata, Metadata.toJson, decStrField, decNatField, jfield, keyMatch, lowerStr]

theorem decodeChat_toJson (c : Chat) : decodeChat c.toJson = some c := by
  simp [decodeChat, Chat.toJson, decodeSavedMessage, decodeSavedResponse, SavedMessage.toJson,
    SavedResponse.toJson, decStrField, decNatField, jfield, keyMatch, lowerStr]

theorem mapOption_chat_toJson (l : List Chat) :
    mapOption decodeChat (l.map Chat.toJson) = some l := by
  induction l with
  | nil => rfl
  | cons c rest ih => simp [mapOption, decodeChat_toJson, ih]

theorem mapOption_str_toJson (l : List String) :
    mapOption (fun j => match j with | Json.str s => some s | _ => none) (l.map Json.str) =
      some l := by
  induction l with
  | nil => rfl
  | cons c rest ih => simp [mapOption, ih]

/-- The session stored on disk round-trips to the session with only the
role name populated (the `UnmarshalJSON` contract). -/
theorem decodeSession_toJson (s : Session) :
    decodeSession s.toJson =
      some { s with role := { name := s.role.name, label := "", persona := "", description := "" } } := by
  simp [decodeSession, Session.toJson, decStrField, decStrListField, decChatListField,
    decMetaField, decodeMetadata, Metadata.toJson, decNatField, jfield, keyMatch, lowerStr,
    mapOption_chat_toJson, mapOption_str_toJson]

/-- The partial decode used by `rebuildIndexes` recovers exactly the
summary that `EndSession` would have written for this session. -/
theorem decodeSessionSummary_toJson (s : Session) :
    decodeSessionSummary s.toJson = some (sessionSummaryOf s) := by
  simp [decodeSessionSummary, Session.toJson, sessionSummaryOf, decStrField, decMetaField,
    decodeMetadata, Metadata.toJson, decNatField, jfield, keyMatch, lowerStr]

theorem decodeRoleBlob_toJson (r : Role) :
    decodeRoleBlob (Blob.json r.toJson) = some r := decodeRole_toJson r

theorem decodePrefBlob_toJson (p : Preference) :
    decodePrefBlob (Blob.json p.toJson) = some p := decodePreference_toJson p

theorem decodeSessionBlob_toJson (s : Session) :
    decodeSessionBlob (Blob.json s.toJson) =
      some { s with role := { name := s.role.name, label := "", persona := "", description := "" } } :=
  decodeSession_toJson s

theorem decodeSessionSummaryBlob_toJson (s : Session) :
    decodeSessionSummaryBlob (Blob.json s.toJson) = some (sessionSummaryOf s) :=
  decodeSessionSummary_toJson s

/-! ## Lemmas about the rebuilt indexes -/

theorem lookupA_foldl_build {β α : Type} (dec : Blob → Option β) (key : β → String)
    (mk : β → α) (dir : AList Blob) (acc : AList α) (k : String) :
    (lookupA
        (dir.foldl
          (fun acc p =>
            match dec p.2 with
            | some b => insertA acc (key b) (mk b)
            | none => acc) acc) k).isSome = true ↔
      (lookupA acc k).isSome = true ∨ ∃ p ∈ dir, ∃ b, dec p.2 = some b ∧ key b = k := by
  induction dir generalizing acc with
  | nil => simp
  | cons q rest ih =>
      rw [List.foldl_cons, ih]
      rcases hq : dec q.2 with _ | b
      · simp only [hq]
        constructor
        · rintro (h | h)
          · exact Or.inl h
          · exact Or.inr (by
              obtain ⟨p, hp, hb⟩ := h
              exact ⟨p, List.mem_cons_of_mem _ hp, hb⟩)
        · rintro (h | ⟨p, hp, b, hb, hbk⟩)
          · exact Or.inl h
          · rcases List.mem_cons.mp hp with hpq | hpr
            · subst hpq
              rw [hq] at hb
              cases hb
            · exact Or.inr ⟨p, hpr, b, hb, hbk⟩
      · simp only [hq]
        by_cases hk : key b = k
        · subst hk
          rw [lookupA_insertA_self]
          simp only [Option.isSome_some, true_iff, true_or, iff_true]
          exact Or.inr ⟨q, List.mem_cons_self q rest, b, hq, rfl⟩
        · rw [lookupA_insertA_ne acc (key b) k (mk b) (Ne.symm hk)]
          constructor
          · rintro (h | ⟨p, hp, b', hb', hbk⟩)
            · exact Or.inl h
            · exact Or.inr ⟨p, List.mem_cons_of_mem _ hp, b', hb', hbk⟩
          · rintro (h | ⟨p, hp, b', hb', hbk⟩)
            · exact Or.inl h
            · rcases List.mem_cons.mp hp with hpq | hpr
              · subst hpq
                rw [hq] at hb'
                cases hb'
                exact absurd hbk hk
              · exact Or.inr ⟨p, hpr, b', hb', hbk⟩

/-- An entry exists in a rebuilt index exactly for the decodable files
whose record key matches. -/
theorem lookupA_buildIndexFold_isSome {β α : Type} (dec : Blob → Option β)
    (key : β → String) (mk : β → α) (dir : AList Blob) (k : String) :
    (lookupA (buildIndexFold dec key mk dir) k).isSome = true ↔
      ∃ p ∈ dir, ∃ b, dec p.2 = some b ∧ key b = k := by
  rw [buildIndexFold, lookupA_foldl_build]
  simp

theorem keysA_foldl_build_nodup {β α : Type} (dec : Blob → Option β) (key : β → String)
    (mk : β → α) (dir : AList Blob) (acc : AList α) (h : (keysA acc).Nodup) :
    (keysA
        (dir.foldl
          (fun acc p =>
            match dec p.2 with
            | some b => insertA acc (key b) (mk b)
            | none => acc) acc)).Nodup := by
  induction dir generalizing acc with
  | nil => simpa using h
  | cons q rest ih =>
      rw [List.foldl_cons]
      rcases hq : dec q.2 with _ | b
      · simp only [hq]
        exact ih acc h
      · simp only [hq]
        exact ih _ (keysA_insertA_nodup acc (key b) (mk b) h)

theorem keysA_buildIndexFold_nodup {β α : Type} (dec : Blob → Option β)
    (key : β → String) (mk : β → α) (dir : AList Blob) :
    (keysA (buildIndexFold dec key mk dir)).Nodup :=
  keysA_foldl_build_nodup dec key mk dir [] (by simp [keysA])

/-- With a well-keyed directory the rebuilt index mirrors the directory
keys exactly. -/
theorem buildIndexFold_sync {β α : Type} (dec : Blob → Option β) (key : β → String)
    (mk : β → α) (dir : AList Blob)
    (hwk : ∀ p ∈ dir, ∃ b, dec p.2 = some b ∧ key b = p.1) :
    dirSync (buildIndexFold dec key mk dir) dir := by
  intro k
  rw [lookupA_buildIndexFold_isSome]
  constructor
  · rintro ⟨p, hp, b, hb, hbk⟩
    obtain ⟨b', hb', hk'⟩ := hwk p hp
    rw [hb'] at hb
    cases hb
    rw [lookupA_isSome_iff_mem]
    subst hbk
    rw [hk']
    exact List.mem_map_of_mem Prod.fst hp
  · intro h
    rw [Option.isSome_iff_exists] at h
    obtain ⟨b, hb⟩ := h
    have hmem := lookupA_eq_some_mem dir k b hb
    obtain ⟨b', hb', hk'⟩ := hwk (k, b) hmem
    exact ⟨(k, b), hmem, b', hb', hk'⟩

/-! ## Preservation lemmas for the index-mirror invariant -/

theorem dirSync_insertA {α : Type} (idx : AList α) (dir : AList Blob) (k : String)
    (v : α) (b : Blob) (h : dirSync idx dir) : dirSync (insertA idx k v) (insertA dir k b) := by
  intro k'
  by_cases hk : k' = k
  · subst hk
    rw [lookupA_insertA_self, lookupA_insertA_self]
    simp
  · rw [lookupA_insertA_ne idx k k' v hk, lookupA_insertA_ne dir k k' b hk]
    exact h k'

theorem dirSync_eraseA {α : Type} (idx : AList α) (dir : AList Blob) (k : String)
    (h : dirSync idx dir) : dirSync (eraseA idx k) (eraseA dir k) := by
  intro k'
  by_cases hk : k' = k
  · subst hk
    rw [lookupA_eraseA_self, lookupA_eraseA_self]
    simp
  · rw [lookupA_eraseA_ne idx k k' hk, lookupA_eraseA_ne dir k k' hk]
    exact h k'

theorem wellKeyedG_insertA {β : Type} (dec : Blob → Option β) (key : β → String)
    (dir : AList Blob) (k : String) (b : Blob) (x : β)
    (h : WellKeyedG dec key dir) (hx : dec b = some x) (hk : key x = k) :
    WellKeyedG dec key (insertA dir k b) := by
  intro p hp
  rcases mem_insertA dir k b p hp with h' | hpm
  · subst h'
    exact ⟨x, hx, hk⟩
  · exact h p hpm

theorem wellKeyedG_eraseA {β : Type} (dec : Blob → Option β) (key : β → String)
    (dir : AList Blob) (k : String) (h : WellKeyedG dec key dir) :
    WellKeyedG dec key (eraseA dir k) :=
  fun p hp => h p (mem_eraseA dir k p hp)

/-- A full session decode implies the partial summary decode, with the
same identifying fields (both read the same keys of the same object). -/
theorem decodeSessionSummary_of_decodeSession (j : Json) (s : Session)
    (h : decodeSession j = some s) :
    decodeSessionSummary j =
      some { id := s.id, label := s.label, roleName := s.role.name,
             createdAt := s.metadata.createdAt, lastUpdated := s.metadata.lastUpdated } := by
  cases j with
  | obj fields =>
      simp only [decodeSession] at h
      rcases hid : decStrField fields ("id") with _ | i
      · rw [hid] at h
        simp at h
      rcases hlab : decStrField fields ("label") with _ | lb
      · rw [hid, hlab] at h
        simp at h
      rcases hrole : decStrField fields ("role") with _ | rn
      · rw [hid, hlab, hrole] at h
        simp at h
      rcases hsrc : decStrListField fields ("sources") with _ | src
      · rw [hid, hlab, hrole, hsrc] at h
        simp at h
      rcases hch : decChatListField fields ("chat") with _ | ch
      · rw [hid, hlab, hrole, hsrc, hch] at h
        simp at h
      rcases hmd : decMetaField fields ("metadata") with _ | md
      · rw [hid, hlab, hrole, hsrc, hch, hmd] at h
        simp at h
      rw [hid, hlab, hrole, hsrc, hch, hmd] at h
      simp only [Option.some.injEq] at h
      subst h
      simp [decodeSessionSummary, hid, hlab, hrole, hmd]
  | null =>
      simp only [decodeSession, Option.some.injEq] at h
      subst h
      simp [decodeSessionSummary, zeroMetadata]
  | bool b => simp [decodeSession] at h
  | num n => simp [decodeSession] at h
  | str s' => simp [decodeSession] at h
  | arr es => simp [decodeSession] at h

theorem decodeSessionSummaryBlob_of_decodeSessionBlob (b : Blob) (s : Session)
    (h : decodeSessionBlob b = some s) :
    decodeSessionSummaryBlob b =
      some { id := s.id, label := s.label, roleName := s.role.name,
             createdAt := s.metadata.createdAt, lastUpdated := s.metadata.lastUpdated } := by
  cases b with
  | corrupt raw => simp [decodeSessionBlob] at h
  | json j => exact decodeSessionSummary_of_decodeSession j s h

/-- `saveRole` preserves the index-mirror invariant. -/
theorem indexInv_saveRole (w : Workspace) (role : Role) (h : IndexInv w) :
    IndexInv (w.saveRole role) :=
  { syncSessions := h.syncSessions
    syncRoles := dirSync_insertA _ _ _ _ _ h.syncRoles
    syncPrefs := h.syncPrefs
    keyedSessions := h.keyedSessions
    keyedRoles :=
      wellKeyedG_insertA _ _ _ _ _ role h.keyedRoles (decodeRoleBlob_toJson role) rfl
    keyedPrefs := h.keyedPrefs
    nodupSessionsDir := h.nodupSessionsDir
    nodupRolesDir := keysA_insertA_nodup _ _ _ h.nodupRolesDir
    nodupPrefsDir := h.nodupPrefsDir
    nodupSessionsIdx := h.nodupSessionsIdx
    nodupRolesIdx := keysA_insertA_nodup _ _ _ h.nodupRolesIdx
    nodupPrefsIdx := h.nodupPrefsIdx
    persisted := rfl }

/-- `DeleteRole` preserves the index-mirror invariant. -/
theorem indexInv_DeleteRole (w : Workspace) (name : String) (h : IndexInv w) :
    IndexInv (w.DeleteRole name) :=
  { syncSessions := h.syncSessions
    syncRoles := dirSync_eraseA _ _ _ h.syncRoles
    syncPrefs := h.syncPrefs
    keyedSessions := h.keyedSessions
    keyedRoles := wellKeyedG_eraseA _ _ _ _ h.keyedRoles
    keyedPrefs := h.keyedPrefs
    nodupSessionsDir := h.nodupSessionsDir
    nodupRolesDir := keysA_eraseA_nodup _ _ h.nodupRolesDir
    nodupPrefsDir := h.nodupPrefsDir
    nodupSessionsIdx := h.nodupSessionsIdx
    nodupRolesIdx := keysA_eraseA_nodup _ _ h.nodupRolesIdx
    nodupPrefsIdx := h.nodupPrefsIdx
    persisted := rfl }

/-- `SavePreference` preserves the index-mirror invariant. -/
theorem indexInv_SavePreference (w : Workspace) (pref : Preference) (h : IndexInv w) :
    IndexInv (w.SavePreference pref) :=
  { syncSessions := h.syncSessions
    syncRoles := h.syncRoles
    syncPrefs := dirSync_insertA _ _ _ _ _ h.syncPrefs
    keyedSessions := h.keyedSessions
    keyedRoles := h.keyedRoles
    keyedPrefs :=
      wellKeyedG_insertA _ _ _ _ _ pref h.keyedPrefs (decodePrefBlob_toJson pref) rfl
    nodupSessionsDir := h.nodupSessionsDir
    nodupRolesDir := h.nodupRolesDir
    nodupPrefsDir := keysA_insertA_nodup _ _ _ h.nodupPrefsDir
    nodupSessionsIdx := h.nodupSessionsIdx
    nodupRolesIdx := h.nodupRolesIdx
    nodupPrefsIdx := keysA_insertA_nodup _ _ _ h.nodupPrefsIdx
    persisted := rfl }

/-- `DeletePreference` preserves the index-mirror invariant. -/
theorem indexInv_DeletePreference (w : Workspace) (id : String) (h : IndexInv w) :
    IndexInv (w.DeletePreference id) :=
  { syncSessions := h.syncSessions
    syncRoles := h.syncRoles
    syncPrefs := dirSync_eraseA _ _ _ h.syncPrefs
    keyedSessions := h.keyedSessions
    keyedRoles := h.keyedRoles
    keyedPrefs := wellKeyedG_eraseA _ _ _ _ h.keyedPrefs
    nodupSessionsDir := h.nodupSessionsDir
    nodupRolesDir := h.nodupRolesDir
    nodupPrefsDir := keysA_eraseA_nodup _ _ h.nodupPrefsDir
    nodupSessionsIdx := h.nodupSessionsIdx
    nodupRolesIdx := h.nodupRolesIdx
    nodupPrefsIdx := keysA_eraseA_nodup _ _ h.nodupPrefsIdx
    persisted := rfl }

/-- `rebuildIndexes` (re)establishes the index-mirror invariant on a
well-keyed directory tree. -/
theorem indexInv_rebuildIndexes (w : Workspace) (h : IndexInv w) :
    IndexInv w.rebuildIndexes :=
  { syncSessions := buildIndexFold_sync _ _ _ _ h.keyedSessions
    syncRoles := buildIndexFold_sync _ _ _ _ h.keyedRoles
    syncPrefs := buildIndexFold_sync _ _ _ _ h.keyedPrefs
    keyedSessions := h.keyedSessions
    keyedRoles := h.keyedRoles
    keyedPrefs := h.keyedPrefs
    nodupSessionsDir := h.nodupSessionsDir
    nodupRolesDir := h.nodupRolesDir
    nodupPrefsDir := h.nodupPrefsDir
    nodupSessionsIdx := keysA_buildIndexFold_nodup _ _ _ _
    nodupRolesIdx := keysA_buildIndexFold_nodup _ _ _ _
    nodupPrefsIdx := keysA_buildIndexFold_nodup _ _ _ _
    persisted := rfl }

/-- A successful `EndSession` preserves the index-mirror invariant. -/
theorem indexInv_EndSession (w w' : Workspace) (hE : w.EndSession = (w', none))
    (h : IndexInv w) : IndexInv w' := by
  unfold Workspace.EndSession at hE
  rcases hsf : w.fs.sessionFile with _ | b
  · rw [hsf] at hE
    simp only [Prod.mk.injEq, and_true] at hE
    exact hE ▸ h
  · rw [hsf] at hE
    rcases hls : w.loadSession with e | s
    · rw [hls] at hE
      simp at hE
    · rw [hls] at hE
      simp only [Prod.mk.injEq, and_true] at hE
      subst hE
      exact
        { syncSessions := dirSync_insertA _ _ _ _ _ h.syncSessions
          syncRoles := h.syncRoles
          syncPrefs := h.syncPrefs
          keyedSessions :=
            wellKeyedG_insertA _ _ _ _ _ (sessionSummaryOf s) h.keyedSessions
              (decodeSessionSummaryBlob_toJson s) rfl
          keyedRoles := h.keyedRoles
          keyedPrefs := h.keyedPrefs
          nodupSessionsDir := keysA_insertA_nodup _ _ _ h.nodupSessionsDir
          nodupRolesDir := h.nodupRolesDir
          nodupPrefsDir := h.nodupPrefsDir
          nodupSessionsIdx := keysA_insertA_nodup _ _ _ h.nodupSessionsIdx
          nodupRolesIdx := h.nodupRolesIdx
          nodupPrefsIdx := h.nodupPrefsIdx
          persisted := rfl }

/-- A successful `ResumeArchivedSession` preserves the index-mirror
invariant. -/
theorem indexInv_Resume (w w' : Workspace) (sid : String) (s : Session)
    (hR : w.ResumeArchivedSession sid = (w', Except.ok s)) (h : IndexInv w) :
    IndexInv w' := by
  unfold Workspace.ResumeArchivedSession at hR
  split at hR
  · simp at hR
  rename_i w1 hE
  have h1 : IndexInv w1 := indexInv_EndSession w w1 hE h
  split at hR
  · simp at hR
  rename_i b hlk
  split at hR
  · simp at hR
  rename_i s0 hdec
  split at hR
  · simp at hR
  rename_i role hrole
  simp only [Prod.mk.injEq, Except.ok.injEq] at hR
  obtain ⟨hw', hs⟩ := hR
  subst hw'
  -- the decoded record's id equals the file-name stem (well-keyedness)
  have hmem := lookupA_eq_some_mem _ _ _ hlk
  obtain ⟨summ, hsumm, hsid⟩ := h1.keyedSessions (sid, b) hmem
  have hagree := decodeSessionSummaryBlob_of_decodeSessionBlob b s0 hdec
  rw [hsumm] at hagree
  have hid : s0.id = sid := by
    have h2 : summ.id = sid := hsid
    rw [Option.some.inj hagree] at h2
    exact h2
  have hsidid : ({ s0 with role := role } : Session).id = sid := hid
  exact
    { syncSessions := by
        rw [hsidid]
        exact dirSync_eraseA _ _ _ h1.syncSessions
      syncRoles := h1.syncRoles
      syncPrefs := h1.syncPrefs
      keyedSessions := wellKeyedG_eraseA _ _ _ _ h1.keyedSessions
      keyedRoles := h1.keyedRoles
      keyedPrefs := h1.keyedPrefs
      nodupSessionsDir := keysA_eraseA_nodup _ _ h1.nodupSessionsDir
      nodupRolesDir := h1.nodupRolesDir
      nodupPrefsDir := h1.nodupPrefsDir
      nodupSessionsIdx := keysA_eraseA_nodup _ _ h1.nodupSessionsIdx
      nodupRolesIdx := h1.nodupRolesIdx
      nodupPrefsIdx := h1.nodupPrefsIdx
      persisted := rfl }


/-! ## String lemmas for the fence-stripping stage -/

theorem dropWhile_cons_false (c : Char) (t : List Char) (h : isSpaceGo c = false) :
    (c :: t).dropWhile isSpaceGo = c :: t := by
  simp [List.dropWhile_cons, h]

theorem trimL_cons_append_single (c : Char) (mid : List Char) (d : Char)
    (hc : isSpaceGo c = false) (hd : isSpaceGo d = false) :
    trimL (c :: (mid ++ [d])) = c :: (mid ++ [d]) := by
  unfold trimL
  rw [dropWhile_cons_false c _ hc]
  rw [show (c :: (mid ++ [d])).reverse = d :: (mid.reverse ++ [c]) from by simp]
  rw [dropWhile_cons_false d _ hd]
  simp

theorem breakNL_append (pre rest : List Char) (h : '\n' ∉ pre) :
    breakNL (pre ++ '\n' :: rest) = (pre, some rest) := by
  induction pre with
  | nil => simp [breakNL]
  | cons c t ih =>
      simp only [List.mem_cons, not_or] at h
      have hc : ¬c = '\n' := fun hcc => h.1 hcc.symm
      simp [breakNL, hc, ih h.2]

theorem lastIndexFence_single (l : List Char) (n : Nat) (h : fenceMatches l = [n]) :
    lastIndexFence l = some n := by
  rw [lastIndexFence, h]
  rfl

theorem cleanFences_fenced (opts body : List Char) (h1 : '\n' ∉ opts)
    (h2 : fenceMatches (body ++ fencePat) = [body.length]) :
    cleanFences (fenceChars ++ opts ++ '\n' :: (body ++ fencePat)) = trimL body := by
  have hshape : fenceChars ++ opts ++ '\n' :: (body ++ fencePat) =
      bt :: ((bt :: bt :: opts ++ '\n' :: body ++ ['\n', bt, bt]) ++ [bt]) := by
    simp [fenceChars, fencePat]
  have htrim : trimL (fenceChars ++ opts ++ '\n' :: (body ++ fencePat)) =
      fenceChars ++ opts ++ '\n' :: (body ++ fencePat) := by
    rw [hshape]
    exact trimL_cons_append_single bt _ bt (by decide) (by decide)
  have hpre : fenceChars.isPrefixOf (fenceChars ++ opts ++ '\n' :: (body ++ fencePat)) = true := by
    rw [List.isPrefixOf_iff_prefix]
    exact List.prefix_append fenceChars (opts ++ '\n' :: (body ++ fencePat))
  have hnl : '\n' ∉ fenceChars ++ opts := by
    simp [fenceChars, bt, not_or, h1]
  have hbrk : breakNL (fenceChars ++ opts ++ '\n' :: (body ++ fencePat)) =
      (fenceChars ++ opts, some (body ++ fencePat)) := by
    have h := breakNL_append (fenceChars ++ opts) (body ++ fencePat) hnl
    rw [List.append_assoc] at h
    exact h
  have hpre0 : fenceChars.isPrefixOf (fenceChars ++ opts) = true := by
    rw [List.isPrefixOf_iff_prefix]
    exact List.prefix_append fenceChars opts
  rw [cleanFences, htrim, hpre]
  simp only [if_true, hbrk, hpre0]
  rw [lastIndexFence_single _ _ h2]
  simp only [List.take_left]

end Nani
namespace Nani

theorem cleanFences_not_fenced (l : List Char)
    (h : fenceChars.isPrefixOf (trimL l) = false) : cleanFences l = trimL l := by
  rw [cleanFences, h]
  simp

theorem trimmed_getLast_nonspace (body : List Char) (hne : body ≠ [])
    (htr : trimL body = body) : isSpaceGo (body.getLast hne) = false := by
  have h1 : List.rdropWhile isSpaceGo (body.dropWhile isSpaceGo) = body := htr
  have hsuf : body.dropWhile isSpaceGo <:+ body := List.dropWhile_suffix isSpaceGo
  have hle1 : body.length ≤ (body.dropWhile isSpaceGo).length := by
    have hp := List.rdropWhile_prefix isSpaceGo (l := body.dropWhile isSpaceGo)
    have := hp.length_le
    rw [h1] at this
    exact this
  have hlen : (body.dropWhile isSpaceGo).length = body.length :=
    Nat.le_antisymm hsuf.length_le hle1
  have hdw : body.dropWhile isSpaceGo = body := hsuf.eq_of_length hlen
  rw [hdw] at h1
  have h2 := List.rdropWhile_eq_self_iff.mp h1 hne
  simpa using h2

theorem cleanFences_noclose (opts body : List Char) (h1 : '\n' ∉ opts)
    (h2 : fenceMatches body = []) (hne : body ≠ []) (htr : trimL body = body) :
    cleanFences (fenceChars ++ opts ++ '\n' :: body) = trimL body := by
  have hlast := trimmed_getLast_nonspace body hne htr
  have hshape : fenceChars ++ opts ++ '\n' :: body =
      bt :: ((bt :: bt :: opts ++ '\n' :: body.dropLast) ++ [body.getLast hne]) := by
    conv_lhs => rw [← List.dropLast_append_getLast hne]
    simp [fenceChars]
  have htrimF : trimL (fenceChars ++ opts ++ '\n' :: body) =
      fenceChars ++ opts ++ '\n' :: body := by
    rw [hshape]
    exact trimL_cons_append_single bt _ _ (by decide) hlast
  have hpre : fenceChars.isPrefixOf (fenceChars ++ opts ++ '\n' :: body) = true := by
    rw [List.isPrefixOf_iff_prefix]
    exact List.prefix_append fenceChars (opts ++ '\n' :: body)
  have hnl : '\n' ∉ fenceChars ++ opts := by
    simp [fenceChars, bt, not_or, h1]
  have hbrk : breakNL (fenceChars ++ opts ++ '\n' :: body) =
      (fenceChars ++ opts, some body) := by
    have h := breakNL_append (fenceChars ++ opts) body hnl
    rw [List.append_assoc] at h
    exact h
  have hpre0 : fenceChars.isPrefixOf (fenceChars ++ opts) = true := by
    rw [List.isPrefixOf_iff_prefix]
    exact List.prefix_append fenceChars opts
  have hnone : lastIndexFence body = none := by
    rw [lastIndexFence, h2]
    rfl
  rw [cleanFences, htrimF, hpre]
  simp only [if_true, hbrk, hpre0, hnone]

theorem validateResp_none_shape (o o' : String) (r rr : Response)
    (h : validateResp o r = (rr, none)) : rr = r ∧ validateResp o' r = (r, none) := by
  unfold validateResp at h ⊢
  split at h
  · simp at h
  split at h
  · simp at h
  split at h
  · simp at h
  rename_i hthink hsummary hcontent
  simp only [Prod.mk.injEq] at h
  rw [if_neg hthink, if_neg hsummary, if_neg hcontent]
  exact ⟨h.1.symm, rfl⟩

theorem parse_ok_shape (s : String) (h : (parseAIResponse s).2 = none) :
    ∃ r, unmarshalResp (cleanFences s.data) = some r ∧ validateResp s r = (r, none) ∧
      parseAIResponse s = (r, none) ∧ trimL s.data ≠ [] := by
  unfold parseAIResponse at h
  split at h
  · simp at h
  rename_i hne
  split at h
  · simp at h
  rename_i r hum
  rcases hv : validateResp s r with ⟨rr, e⟩
  rw [hv] at h
  simp at h
  subst h
  obtain ⟨hrr, _⟩ := validateResp_none_shape s s r rr hv
  rw [hrr] at hv
  have hps : parseAIResponse s = validateResp s r := by
    unfold parseAIResponse
    rw [if_neg hne, hum]
  exact ⟨r, hum, hv, by rw [hps, hv], hne⟩

theorem trimL_fenced (opts body : List Char) :
    trimL (fenceChars ++ opts ++ '\n' :: (body ++ fencePat)) =
      fenceChars ++ opts ++ '\n' :: (body ++ fencePat) := by
  have hshape : fenceChars ++ opts ++ '\n' :: (body ++ fencePat) =
      bt :: ((bt :: bt :: opts ++ '\n' :: body ++ ['\n', bt, bt]) ++ [bt]) := by
    simp [fenceChars, fencePat]
  rw [hshape]
  exact trimL_cons_append_single bt _ bt (by decide) (by decide)

theorem fenceChars_data : ("```").data = fenceChars := by decide

theorem fencePat_data : ("\n```").data = fencePat := by decide

theorem nl_data : ("\n").data = ['\n'] := by decide

theorem data_fenced (opts body : String) :
    ("```" ++ opts ++ "\n" ++ body ++ "\n```").data =
      fenceChars ++ opts.data ++ '\n' :: (body.data ++ fencePat) := by
  simp only [String.data_append, nl_data, List.singleton_append, ← fenceChars_data,
    ← fencePat_data]
  simp [List.append_assoc]

theorem data_fenced_noclose (opts body : String) :
    ("```" ++ opts ++ "\n" ++ body).data =
      fenceChars ++ opts.data ++ '\n' :: body.data := by
  simp only [String.data_append, nl_data, List.singleton_append, ← fenceChars_data]
  simp [List.append_assoc]

/-! ## Claim theorems for the response codec -/

/-- Claim C2 (counterexample): the codec's JSON field for the reasoning
part is named `think`, so the claim's literal input
`{"reasoning":"a","summary":"b","content":"c"}` leaves the `think` field
empty: the codec returns the fallback with `ErrEmptyThink`, not the
validated record with no error. -/
theorem c2_counterexample :
    parseAIResponse ("\x7b\"reasoning\":\"a\",\"summary\":\"b\",\"content\":\"c\"\x7d") =
      (defaultResponse ("\x7b\"reasoning\":\"a\",\"summary\":\"b\",\"content\":\"c\"\x7d"),
        some RespErr.emptyThink) ∧
    parseAIResponse ("\x7b\"reasoning\":\"a\",\"summary\":\"b\",\"content\":\"c\"\x7d") ≠
      ({ think := "a", summary := "b", content := "c" }, none) :=
  ⟨by decide, by decide⟩

/-- Claim C2 (amended): parsing `{"think":"a","summary":"b","content":"c"}`
returns the validated three-field record `{a, b, c}` with no error. -/
theorem c2_parse_valid_object :
    parseAIResponse ("\x7b\"think\":\"a\",\"summary\":\"b\",\"content\":\"c\"\x7d") =
      ({ think := "a", summary := "b", content := "c" }, none) := by
  decide

/-- Claim C3: on every failing input the codec returns the fallback record
whose `content` is the original raw input unchanged and whose `think` and
`summary` are the fixed placeholder strings, paired with the error. -/
theorem c3_fallback_preserves_original (s : String) (r : Response) (e : RespErr)
    (h : parseAIResponse s = (r, some e)) :
    r = { think := "No think block", summary := "No summary block", content := s } := by
  unfold parseAIResponse at h
  split at h
  · simp only [Prod.mk.injEq] at h
    exact h.1.symm
  split at h
  · simp only [Prod.mk.injEq] at h
    exact h.1.symm
  rename_i rr hum
  unfold validateResp at h
  split at h
  · simp only [Prod.mk.injEq] at h
    exact h.1.symm
  split at h
  · simp only [Prod.mk.injEq] at h
    exact h.1.symm
  split at h
  · simp only [Prod.mk.injEq] at h
    exact h.1.symm
  simp at h

/-- Claim C3 witness: the empty input fails with the empty-input error and
the fallback carries the (empty) original text. -/
theorem c3_witness :
    defaultResponse ("") =
      { think := "No think block", summary := "No summary block", content := "" } :=
  c3_fallback_preserves_original ("") (defaultResponse ("")) RespErr.emptyInput (by decide)

/-- Claim C6 (counterexample): for a fenced input whose body fails to
parse, the result is NOT the same as parsing the unfenced body directly —
the decode stage sees the same body (first conjunct) but the fallback
carries the original fenced text, so the results differ. -/
theorem c6_counterexample :
    cleanFences (("```\nbad\n```").data) = ("bad").data ∧
    parseAIResponse ("```\nbad\n```") ≠ parseAIResponse ("bad") :=
  ⟨by decide, by decide⟩

/-- Claim C6 (amended): (1) for an input wrapped in a fence (opening fence
line, body, closing fence — the final `"\n```"` being the last fence
occurrence), when parsing the unfenced body succeeds, parsing the fenced
input gives the identical result; (2) with an opening fence line but no
closing fence, everything after the opening fence line (trimmed) is used
as the body; (3) exactly one outermost wrapper is stripped (a doubly
fenced input keeps its inner fence). -/
theorem c6_single_fence_strip :
    (∀ opts body : String, '\n' ∉ opts.data →
        fenceMatches (body.data ++ fencePat) = [body.data.length] →
        fenceChars.isPrefixOf (trimL body.data) = false →
        (parseAIResponse body).2 = none →
        parseAIResponse ("```" ++ opts ++ "\n" ++ body ++ "\n```") = parseAIResponse body) ∧
    (∀ opts body : String, '\n' ∉ opts.data → fenceMatches body.data = [] →
        trimL body.data = body.data → body.data ≠ [] →
        cleanFences (("```" ++ opts ++ "\n" ++ body).data) = trimL body.data) ∧
    cleanFences (("```\n```json\n\x7b\x7d\n```\n```").data) = ("```json\n\x7b\x7d\n```").data := by
  refine ⟨?_, ?_, by decide⟩
  · intro opts body h1 h2 h3 h4
    obtain ⟨r, hum, hval, hps, hne⟩ := parse_ok_shape body h4
    have hcfb : cleanFences body.data = trimL body.data := cleanFences_not_fenced _ h3
    have hdata := data_fenced opts body
    have hcff : cleanFences (("```" ++ opts ++ "\n" ++ body ++ "\n```").data) =
        trimL body.data := by
      rw [hdata]
      exact cleanFences_fenced opts.data body.data h1 h2
    have htrne : trimL (("```" ++ opts ++ "\n" ++ body ++ "\n```").data) ≠ [] := by
      rw [hdata, trimL_fenced]
      simp [fenceChars]
    have humf :
        unmarshalResp (cleanFences (("```" ++ opts ++ "\n" ++ body ++ "\n```").data)) =
          some r := by
      rw [hcff, ← hcfb, hum]
    have hvf : validateResp ("```" ++ opts ++ "\n" ++ body ++ "\n```") r = (r, none) :=
      (validateResp_none_shape body ("```" ++ opts ++ "\n" ++ body ++ "\n```") r r hval).2
    rw [hps]
    unfold parseAIResponse
    rw [if_neg htrne, humf]
    exact hvf
  · intro opts body h1 h2 h3 h4
    rw [data_fenced_noclose opts body]
    exact cleanFences_noclose opts.data body.data h1 h2 h4 h3

/-- Claim C6 witness: the spec's own example — a `json`-tagged fence around
a valid object parses identically to the unfenced object; and a concrete
unclosed fence keeps everything after the fence line. -/
theorem c6_witness :
    parseAIResponse
        ("```" ++ "json" ++ "\n" ++ ("\x7b\"think\":\"x\",\"summary\":\"y\",\"content\":\"z\"\x7d") ++ "\n```") =
      parseAIResponse ("\x7b\"think\":\"x\",\"summary\":\"y\",\"content\":\"z\"\x7d") ∧
    cleanFences (("```" ++ "json" ++ "\n" ++ ("\x7b\"a\":1\x7d")).data) =
      trimL (("\x7b\"a\":1\x7d").data) :=
  ⟨c6_single_fence_strip.1 ("json") ("\x7b\"think\":\"x\",\"summary\":\"y\",\"content\":\"z\"\x7d")
      (by decide) (by decide) (by decide) (by decide),
   c6_single_fence_strip.2.1 ("json") ("\x7b\"a\":1\x7d")
      (by decide) (by decide) (by decide) (by decide)⟩

/-! ## Claim theorems for the artifact store -/

theorem dirSync_of_keysA_eq {α : Type} (idx : AList α) (dir : AList Blob)
    (h : keysA idx = keysA dir) : dirSync idx dir := by
  intro k
  rw [lookupA_isSome_iff_mem, lookupA_isSome_iff_mem, h]

/-- The fixture workspace satisfies the index-mirror invariant. -/
theorem wsBase_inv : IndexInv wsBase :=
  { syncSessions := dirSync_of_keysA_eq _ _ rfl
    syncRoles := dirSync_of_keysA_eq _ _ rfl
    syncPrefs := dirSync_of_keysA_eq _ _ rfl
    keyedSessions := by
      intro p hp
      simp only [wsBase, List.mem_singleton] at hp
      subst hp
      exact ⟨sessionSummaryOf sessB, decodeSessionSummaryBlob_toJson sessB, rfl⟩
    keyedRoles := by
      intro p hp
      simp only [wsBase, List.mem_singleton] at hp
      subst hp
      exact ⟨role1, decodeRoleBlob_toJson role1, rfl⟩
    keyedPrefs := by
      intro p hp
      simp only [wsBase, List.mem_singleton] at hp
      subst hp
      exact ⟨pref1, decodePrefBlob_toJson pref1, rfl⟩
    nodupSessionsDir := by decide
    nodupRolesDir := by decide
    nodupPrefsDir := by decide
    nodupSessionsIdx := by decide
    nodupRolesIdx := by decide
    nodupPrefsIdx := by decide
    persisted := rfl }

/-- Claim C1: every mutating store operation — saving or deleting a role
or preference, archiving a session (`EndSession`), resuming a session,
rebuilding the indexes — preserves the index-mirror invariant: afterwards
each of the three maps has exactly one summary entry per artifact file on
disk in the corresponding directory (archived sessions keyed by id, roles
by name, preferences by id), and the `Context` has been persisted. -/
theorem c1_index_mirror_invariant (w : Workspace) (hw : IndexInv w) (role : Role)
    (rname : String) (pref : Preference) (pid : String) (sid : String) :
    IndexInv (w.saveRole role) ∧
    IndexInv (w.DeleteRole rname) ∧
    IndexInv (w.SavePreference pref) ∧
    IndexInv (w.DeletePreference pid) ∧
    (∀ w', w.EndSession = (w', none) → IndexInv w') ∧
    (∀ w' s, w.ResumeArchivedSession sid = (w', Except.ok s) → IndexInv w') ∧
    IndexInv w.rebuildIndexes :=
  ⟨indexInv_saveRole w role hw, indexInv_DeleteRole w rname hw,
   indexInv_SavePreference w pref hw, indexInv_DeletePreference w pid hw,
   fun w' hE => indexInv_EndSession w w' hE hw,
   fun w' s hR => indexInv_Resume w w' sid s hR hw,
   indexInv_rebuildIndexes w hw⟩

/-- Claim C1 witness: every operation applied to the concrete fixture
workspace leaves the invariant intact. -/
theorem c1_witness :
    IndexInv (wsBase.saveRole role1) ∧
    IndexInv (wsBase.DeleteRole ("documenter")) ∧
    IndexInv (wsBase.SavePreference pref1) ∧
    IndexInv (wsBase.DeletePreference ("p1")) ∧
    IndexInv (wsBase.EndSession).1 ∧
    IndexInv (wsBase.ResumeArchivedSession ("sessB")).1 ∧
    IndexInv wsBase.rebuildIndexes := by
  have h := c1_index_mirror_invariant wsBase wsBase_inv role1 ("documenter") pref1 ("p1") ("sessB")
  exact ⟨h.1, h.2.1, h.2.2.1, h.2.2.2.1,
    h.2.2.2.2.1 (wsBase.EndSession).1 rfl,
    h.2.2.2.2.2.1 (wsBase.ResumeArchivedSession ("sessB")).1 sessB rfl,
    h.2.2.2.2.2.2⟩

/-! ### Equation lemmas for the session lifecycle -/

theorem loadSession_eq (w : Workspace) (b : Blob) (s0 : Session) (role : Role)
    (hb : w.fs.sessionFile = some b) (hdec : decodeSessionBlob b = some s0)
    (hrole : w.loadRole s0.role.name = Except.ok role) :
    w.loadSession = Except.ok { s0 with role := role } := by
  unfold Workspace.loadSession
  rw [hb]
  simp only [hdec, hrole]

theorem endSession_parts (w : Workspace) (b : Blob) (s0 : Session) (role : Role)
    (hb : w.fs.sessionFile = some b) (hdec : decodeSessionBlob b = some s0)
    (hrole : w.loadRole s0.role.name = Except.ok role) :
    ∃ w1, w.EndSession = (w1, none) ∧
      w1.ctx.indexes.archivedSessions =
        insertA w.ctx.indexes.archivedSessions s0.id
          (sessionSummaryOf { s0 with role := role }) ∧
      w1.fs.sessionFile = none ∧
      (lookupA w1.fs.sessionsDir s0.id).isSome = true ∧
      w1.ctx.indexes.rolesIndex = w.ctx.indexes.rolesIndex ∧
      w1.ctx.settings = w.ctx.settings ∧
      w1.fs.rolesDir = w.fs.rolesDir := by
  unfold Workspace.EndSession
  rw [hb]
  rw [loadSession_eq w b s0 role hb hdec hrole]
  refine ⟨_, rfl, by simp [Workspace.withContext], by simp [Workspace.withContext],
    by simp [Workspace.withContext, lookupA_insertA_self],
    by simp [Workspace.withContext], by simp [Workspace.withContext],
    by simp [Workspace.withContext]⟩

theorem startSession_archive_ok (w w1 : Workspace) (b : Blob) (label desired : String)
    (now : Nat) (newId : String) (hb : w.fs.sessionFile = some b)
    (hE : w.EndSession = (w1, none)) :
    w.StartSession label desired now newId = w1.startWith label desired now newId := by
  unfold Workspace.StartSession
  rw [hb, hE]

theorem startWith_ok (w1 : Workspace) (label desired : String) (now : Nat) (newId : String)
    (role : Role) (hlr : w1.loadRole (w1.resolveRoleName desired) = Except.ok role) :
    w1.startWith label desired now newId =
      (w1.saveSession (newSession label role now newId),
       Except.ok (newSession label role now newId)) := by
  unfold Workspace.startWith
  rw [hlr]

theorem startWith_err (w1 : Workspace) (label desired : String) (now : Nat) (newId : String)
    (e : WsErr) (hlr : w1.loadRole (w1.resolveRoleName desired) = Except.error e) :
    w1.startWith label desired now newId = (w1, Except.error e) := by
  unfold Workspace.startWith
  rw [hlr]

/-- Claim C4: a successful `StartSession` while a session is active grows
the archived-session index by exactly one entry — the previous session's
summary under its id — and the new active session id differs from the
previous one. -/
theorem c4_start_session_archives_previous (w : Workspace) (b : Blob) (sOld : Session)
    (roleOld : Role) (label desired : String) (now : Nat) (newId : String)
    (w' : Workspace) (sess : Session)
    (hb : w.fs.sessionFile = some b)
    (hdec : decodeSessionBlob b = some sOld)
    (hload : w.loadRole sOld.role.name = Except.ok roleOld)
    (habs : lookupA w.ctx.indexes.archivedSessions sOld.id = none)
    (hnew : newId ≠ sOld.id)
    (hS : w.StartSession label desired now newId = (w', Except.ok sess)) :
    w'.ctx.indexes.archivedSessions.length = w.ctx.indexes.archivedSessions.length + 1 ∧
    (lookupA w'.ctx.indexes.archivedSessions sOld.id).isSome = true ∧
    sess.id ≠ sOld.id := by
  obtain ⟨w1, hE, hidx, hsf, hlkf, hroles, hsettings, hrdir⟩ :=
    endSession_parts w b sOld roleOld hb hdec hload
  rw [startSession_archive_ok w w1 b label desired now newId hb hE] at hS
  rcases hlr : w1.loadRole (w1.resolveRoleName desired) with e | rnew
  · rw [startWith_err w1 label desired now newId e hlr] at hS
    simp at hS
  rw [startWith_ok w1 label desired now newId rnew hlr] at hS
  simp only [Prod.mk.injEq, Except.ok.injEq] at hS
  obtain ⟨hw', hsess⟩ := hS
  subst hw'
  refine ⟨?_, ?_, ?_⟩
  · show (w1.ctx.indexes.archivedSessions).length = _
    rw [hidx]
    exact length_insertA_of_absent _ _ _ habs
  · show (lookupA w1.ctx.indexes.archivedSessions sOld.id).isSome = true
    rw [hidx, lookupA_insertA_self]
    rfl
  · rw [← hsess]
    exact hnew

/-- Claim C4 witness: starting a session over the active `sessA` in the
fixture workspace adds exactly the `sessA` summary and changes the id. -/
theorem c4_witness :
    ((wsBase.StartSession ("L") ("") 100 ("newid")).1.ctx.indexes.archivedSessions).length =
      wsBase.ctx.indexes.archivedSessions.length + 1 ∧
    (lookupA (wsBase.StartSession ("L") ("") 100 ("newid")).1.ctx.indexes.archivedSessions
        sessADecoded.id).isSome = true ∧
    (newSession ("L") role1 100 ("newid")).id ≠ sessADecoded.id :=
  c4_start_session_archives_previous wsBase (Blob.json sessA.toJson) sessADecoded
    role1 ("L") ("") 100 ("newid") (wsBase.StartSession ("L") ("") 100 ("newid")).1
    (newSession ("L") role1 100 ("newid")) rfl rfl rfl rfl (by decide) rfl

/-- Claim C5: resuming an archived session id yields an active session
whose chat log (entries, contents and timestamps), id, label, sources and
metadata are identical to the archived record, and afterwards the id is
absent from the archived-session index. -/
theorem c5_resume_restores_chat (w w1 w' : Workspace) (sid : String) (b : Blob)
    (s0 sess : Session)
    (hE : w.EndSession = (w1, none))
    (hb : lookupA w1.fs.sessionsDir sid = some b)
    (hdec : decodeSessionBlob b = some s0)
    (hkey : s0.id = sid)
    (hR : w.ResumeArchivedSession sid = (w', Except.ok sess)) :
    sess.chat = s0.chat ∧ sess.id = s0.id ∧ sess.label = s0.label ∧
    sess.sources = s0.sources ∧ sess.metadata = s0.metadata ∧
    lookupA w'.ctx.indexes.archivedSessions sid = none := by
  unfold Workspace.ResumeArchivedSession at hR
  split at hR
  · simp at hR
  rename_i w1' hE'
  rw [hE] at hE'
  simp only [Prod.mk.injEq, and_true] at hE'
  subst hE'
  split at hR
  · rename_i hlk
    rw [hb] at hlk
    simp at hlk
  rename_i b' hlk
  rw [hb] at hlk
  simp only [Option.some.injEq] at hlk
  subst hlk
  split at hR
  · rename_i hdec'
    rw [hdec] at hdec'
    simp at hdec'
  rename_i s0' hdec'
  rw [hdec] at hdec'
  simp only [Option.some.injEq] at hdec'
  subst hdec'
  split at hR
  · simp at hR
  rename_i role hrole
  simp only [Prod.mk.injEq, Except.ok.injEq] at hR
  obtain ⟨hw', hsess⟩ := hR
  subst hw'
  subst hsess
  refine ⟨rfl, rfl, rfl, rfl, rfl, ?_⟩
  simp only [Workspace.withContext, Workspace.saveSession]
  show lookupA (eraseA w1.ctx.indexes.archivedSessions s0.id) sid = none
  rw [hkey]
  exact lookupA_eraseA_self _ _

/-- Claim C5 witness: resuming the archived `sessB` in the fixture
workspace restores its chat log exactly and clears its index entry. -/
theorem c5_witness :
    sessB.chat = sessBDecoded.chat ∧
    sessB.id = sessBDecoded.id ∧
    sessB.label = sessBDecoded.label ∧
    sessB.sources = sessBDecoded.sources ∧
    sessB.metadata = sessBDecoded.metadata ∧
    lookupA (wsBase.ResumeArchivedSession ("sessB")).1.ctx.indexes.archivedSessions
      ("sessB") = none :=
  c5_resume_restores_chat wsBase (wsBase.EndSession).1
    (wsBase.ResumeArchivedSession ("sessB")).1 ("sessB") (Blob.json sessB.toJson)
    sessBDecoded sessB rfl rfl rfl rfl rfl

/-- Claim C7: `rebuildIndexes` never aborts on corrupt files — it produces
an index entry for exactly those files (in each of the three directories)
that decode successfully, under the decoded record's key; corrupt files
are skipped and do not prevent the other artifacts from being indexed. -/
theorem c7_rebuild_indexes_exactly_decodable (w : Workspace) :
    (∀ k, (lookupA (w.rebuildIndexes).ctx.indexes.archivedSessions k).isSome = true ↔
        ∃ p ∈ w.fs.sessionsDir, ∃ summ, decodeSessionSummaryBlob p.2 = some summ ∧ summ.id = k) ∧
    (∀ k, (lookupA (w.rebuildIndexes).ctx.indexes.rolesIndex k).isSome = true ↔
        ∃ p ∈ w.fs.rolesDir, ∃ r, decodeRoleBlob p.2 = some r ∧ r.name = k) ∧
    (∀ k, (lookupA (w.rebuildIndexes).ctx.indexes.preferencesIndex k).isSome = true ↔
        ∃ p ∈ w.fs.prefsDir, ∃ pref, decodePrefBlob p.2 = some pref ∧ pref.id = k) :=
  ⟨fun k => lookupA_buildIndexFold_isSome decodeSessionSummaryBlob _ _ w.fs.sessionsDir k,
   fun k => lookupA_buildIndexFold_isSome decodeRoleBlob _ _ w.fs.rolesDir k,
   fun k => lookupA_buildIndexFold_isSome decodePrefBlob _ _ w.fs.prefsDir k⟩

/-- Claim C8: deleting a preference whose file does not exist succeeds (in
the source the `os.IsNotExist` removal error is swallowed; the operation
is total here) and leaves the preferences index — and the directory —
unchanged. -/
theorem c8_delete_absent_preference_noop (w : Workspace) (id : String)
    (hfile : lookupA w.fs.prefsDir id = none)
    (hidx : lookupA w.ctx.indexes.preferencesIndex id = none) :
    (w.DeletePreference id).ctx.indexes.preferencesIndex = w.ctx.indexes.preferencesIndex ∧
    (w.DeletePreference id).fs.prefsDir = w.fs.prefsDir :=
  ⟨eraseA_of_absent _ _ hidx, eraseA_of_absent _ _ hfile⟩

/-- Claim C8 witness: deleting the absent id `nosuch` from the fixture
workspace changes nothing. -/
theorem c8_witness :
    (wsBase.DeletePreference ("nosuch")).ctx.indexes.preferencesIndex =
      wsBase.ctx.indexes.preferencesIndex ∧
    (wsBase.DeletePreference ("nosuch")).fs.prefsDir = wsBase.fs.prefsDir :=
  c8_delete_absent_preference_noop wsBase ("nosuch") rfl rfl

/-- Claim C9: a session serializes its role as the role's name string only
(the `role` key of the marshalled object is a JSON string, never the full
role object); deserializing populates only the role's name; and
`loadSession` re-attaches the full role from the role store. -/
theorem c9_session_role_by_name (s : Session) :
    jsonField s.toJson ("role") = some (Json.str s.role.name) ∧
    decodeSession s.toJson =
      some { s with role := { name := s.role.name, label := "", persona := "", description := "" } } ∧
    (∀ (w : Workspace) (r : Role), w.fs.sessionFile = some (Blob.json s.toJson) →
        w.loadRole s.role.name = Except.ok r →
        w.loadSession = Except.ok { s with role := r }) := by
  refine ⟨rfl, decodeSession_toJson s, ?_⟩
  intro w r hf hr
  unfold Workspace.loadSession
  rw [hf]
  simp only [decodeSessionBlob_toJson]
  simp only [hr]

/-- Claim C9 witness: loading the fixture's active session rehydrates the
full `documenter` role. -/
theorem c9_witness :
    wsBase.loadSession = Except.ok { sessA with role := role1 } :=
  (c9_session_role_by_name sessA).2.2 wsBase role1 rfl rfl

/-- Claim C10: when `StartSession` archives the previously active session
successfully but then fails to load the resolved role, it returns the
error with the workspace as left by the archive step: no active session,
and the previous session still in the archive directory and index — the
pre-call active state is not restored. -/
theorem c10_start_session_error_keeps_archive (w w1 : Workspace) (b : Blob)
    (sOld : Session) (roleOld : Role) (label desired : String) (now : Nat)
    (newId : String) (e : WsErr)
    (hb : w.fs.sessionFile = some b)
    (hdec : decodeSessionBlob b = some sOld)
    (hload : w.loadRole sOld.role.name = Except.ok roleOld)
    (hE : w.EndSession = (w1, none))
    (hfail : w1.loadRole (w1.resolveRoleName desired) = Except.error e) :
    w.StartSession label desired now newId = (w1, Except.error e) ∧
    w1.fs.sessionFile = none ∧
    (lookupA w1.fs.sessionsDir sOld.id).isSome = true ∧
    (lookupA w1.ctx.indexes.archivedSessions sOld.id).isSome = true := by
  obtain ⟨w1', hE', hidx, hsf, hlkf, _, _, _⟩ :=
    endSession_parts w b sOld roleOld hb hdec hload
  rw [hE] at hE'
  simp only [Prod.mk.injEq, and_true] at hE'
  subst hE'
  refine ⟨?_, hsf, hlkf, ?_⟩
  · rw [startSession_archive_ok w w1 b label desired now newId hb hE]
    exact startWith_err w1 label desired now newId e hfail
  · rw [hidx, lookupA_insertA_self]
    rfl

/-- Claim C10 witness: in a workspace whose default role file is missing,
starting a session archives the active `sessA`, then fails, leaving
`sessA` archived and no active session. -/
theorem c10_witness :
    wsBad.StartSession ("L") ("") 100 ("n1") =
      ((wsBad.EndSession).1, Except.error WsErr.notFound) ∧
    (wsBad.EndSession).1.fs.sessionFile = none ∧
    (lookupA (wsBad.EndSession).1.fs.sessionsDir sessADecoded.id).isSome = true ∧
    (lookupA (wsBad.EndSession).1.ctx.indexes.archivedSessions sessADecoded.id).isSome =
      true :=
  c10_start_session_error_keeps_archive wsBad (wsBad.EndSession).1
    (Blob.json sessA.toJson) sessADecoded role1 ("L") ("") 100 ("n1") WsErr.notFound
    rfl rfl rfl rfl rfl

end Nani
